import Mathlib

/-!
Verification of the ui-analyser repository's browser resource pool and
analysis pipeline (shallow embedding of `src/apps/agent/analyzer.py` and
`src/apps/backend/analyzer.py`).

Browser and page handles (opaque Playwright objects in the source) are
modelled as natural-number identifiers drawn from a fresh counter, so that
every handle the pool ever creates is distinct, as it is in the source
where each `new_page()` / `launch()` yields a distinct object.
-/

namespace UIAnalyser

/-! ## ChromiumPool (src/apps/agent/analyzer.py lines 15-78) -/

/-- Pool capacities: `ChromiumPool.__init__(max_browsers, max_tabs_per_browser)`. -/
structure PoolCfg where
  maxBrowsers : Nat
  maxTabs : Nat
deriving DecidableEq, Repr

/-- `Config.validate` (src/apps/backend/config.py) requires both capacities
to be positive; every pool in the repository is constructed from a validated
config (or with the literal capacities 4 and 8). -/
def PoolCfg.valid (cfg : PoolCfg) : Prop :=
  0 < cfg.maxBrowsers ∧ 0 < cfg.maxTabs

/-- Pool state: `self.browsers` is a list of (browser, pages) pairs;
`next_id` is the model's fresh-handle counter; `playwright` records whether
the driver is started (`self.playwright is not None`). -/
structure PoolState where
  browsers : List (Nat × List Nat)
  nextId : Nat
  playwright : Bool
deriving DecidableEq, Repr

/-- The pool before any call: `self.browsers = []`, driver started by
`start()` (which `analyze_website` always calls before acquiring). -/
def emptyPool : PoolState := ⟨[], 0, true⟩

/-- `start()`: idempotent initialization of the driver. -/
def startPool (s : PoolState) : PoolState := { s with playwright := true }

/-- The message of the `RuntimeError` raised when the pool is exhausted
(src/apps/agent/analyzer.py line 43). -/
def poolExhaustedMsg : String :=
  "All Chromium browsers and tabs are busy. Please try again later."

/-- The scan in `acquire` (lines 30-34): walk `self.browsers` in insertion
order; for the first browser with `len(pages) < max_tabs_per_browser`,
open a new page (handle `pid`) on it and append it to that browser's page
list. Returns the updated browser list and the chosen browser's handle. -/
def scanAcquire (T pid : Nat) : List (Nat × List Nat) → Option (List (Nat × List Nat) × Nat)
  | [] => none
  | (b, ps) :: rest =>
    if ps.length < T then
      some ((b, ps ++ [pid]) :: rest, b)
    else
      match scanAcquire T pid rest with
      | some (rest', b') => some ((b, ps) :: rest', b')
      | none => none

/-- `acquire()` (lines 27-43): (a) scan for a browser with a free tab slot;
(b) otherwise, if fewer than `max_browsers` browsers exist, launch a new
browser with one page; (c) otherwise raise `RuntimeError`.  Returns the new
state together with the `(browser, page)` pair. -/
def acquire (cfg : PoolCfg) (s : PoolState) : Except String (PoolState × Nat × Nat) :=
  match scanAcquire cfg.maxTabs s.nextId s.browsers with
  | some (bs', b) => .ok ({ s with browsers := bs', nextId := s.nextId + 1 }, b, s.nextId)
  | none =>
    if s.browsers.length < cfg.maxBrowsers then
      .ok (⟨s.browsers ++ [(s.nextId, [s.nextId + 1])], s.nextId + 2, s.playwright⟩,
           s.nextId, s.nextId + 1)
    else
      .error poolExhaustedMsg

/-- `page.close()` inside `release` is wrapped in `try/except Exception:
pass` (lines 49-52), so whether it raises (`closeFails = true`) or not has
no effect on the bookkeeping that follows. -/
def pageCloseAttempt (closeFails : Bool) : Unit :=
  match closeFails with
  | true => ()   -- exception raised and swallowed by `except Exception: pass`
  | false => ()

/-- The loop body of `release` (lines 47-61): find the first browser whose
page list contains `p`; remove `p` from it (`pages.remove(page)`); if the
list became empty, also drop the browser entry
(`self.browsers.remove((browser, pages))`); then return.  A page tracked by
no browser leaves the list unchanged (the loop falls through). -/
def releaseScan (p : Nat) : List (Nat × List Nat) → List (Nat × List Nat)
  | [] => []
  | (b, ps) :: rest =>
    if p ∈ ps then
      let ps' := ps.erase p
      if ps' = [] then rest else (b, ps') :: rest
    else
      (b, ps) :: releaseScan p rest

/-- `release(page)` (lines 45-61).  `pageCloseFails` / `browserCloseFails`
model the two `try/except Exception: pass` blocks around `page.close()` and
`browser.close()`; both exceptions are swallowed, so the resulting state
does not depend on them. -/
def release (pageCloseFails browserCloseFails : Bool) (p : Nat) (s : PoolState) : PoolState :=
  let _ := pageCloseAttempt pageCloseFails
  let _ := pageCloseAttempt browserCloseFails
  { s with browsers := releaseScan p s.browsers }

/-- `close()` (lines 63-78): close every page and browser (each close
attempt wrapped in `try/except Exception: pass`), `self.browsers.clear()`,
and stop/clear the driver when present. -/
def closePool (s : PoolState) : PoolState :=
  { s with browsers := [], playwright := false }

/-- One step of an acquire/release call sequence.  A failed `acquire`
(the `RuntimeError` path) leaves the pool state unchanged. -/
inductive PoolOp where
  | acq : PoolOp
  | rel (pageCloseFails browserCloseFails : Bool) (p : Nat) : PoolOp
deriving DecidableEq, Repr

def applyOp (cfg : PoolCfg) (s : PoolState) : PoolOp → PoolState
  | .acq =>
    match acquire cfg s with
    | .ok (s', _, _) => s'
    | .error _ => s
  | .rel f1 f2 p => release f1 f2 p s

/-- The pool state reached from the empty pool by a sequence of
acquire/release calls. -/
def runOps (cfg : PoolCfg) (ops : List PoolOp) : PoolState :=
  ops.foldl (applyOp cfg) emptyPool

/-- All handles (browser ids and page ids) tracked by a browser list. -/
def allIds : List (Nat × List Nat) → List Nat
  | [] => []
  | (b, ps) :: rest => b :: ps ++ allIds rest

/-- All registered pages of a browser list. -/
def allPages : List (Nat × List Nat) → List Nat
  | [] => []
  | (_, ps) :: rest => ps ++ allPages rest

/-- Total number of registered pages. -/
def totalPages (s : PoolState) : Nat := (allPages s.browsers).length

/-- Number of tracked browsers whose page list contains `p`. -/
def ownerCount (p : Nat) (bs : List (Nat × List Nat)) : Nat :=
  bs.countP (fun y => decide (p ∈ y.2))

/-- The pool's internal invariant: at most `maxBrowsers` browsers, at most
`maxTabs` pages per browser, all handles below the fresh counter, and no
handle tracked twice. -/
structure PoolInv (cfg : PoolCfg) (s : PoolState) : Prop where
  nb : s.browsers.length ≤ cfg.maxBrowsers
  tabs : ∀ y ∈ s.browsers, y.2.length ≤ cfg.maxTabs
  bound : ∀ i ∈ allIds s.browsers, i < s.nextId
  nodup : (allIds s.browsers).Nodup

/-! ### Basic lemmas about the handle lists -/

theorem allIds_append (l1 l2 : List (Nat × List Nat)) :
    allIds (l1 ++ l2) = allIds l1 ++ allIds l2 := by
  induction l1 with
  | nil => simp [allIds]
  | cons y rest ih => cases y with
    | mk b ps => simp [allIds, ih, List.append_assoc]

theorem allPages_append (l1 l2 : List (Nat × List Nat)) :
    allPages (l1 ++ l2) = allPages l1 ++ allPages l2 := by
  induction l1 with
  | nil => simp [allPages]
  | cons y rest ih => cases y with
    | mk b ps => simp [allPages, ih, List.append_assoc]

theorem allPages_sublist (bs : List (Nat × List Nat)) :
    List.Sublist (allPages bs) (allIds bs) := by
  induction bs with
  | nil => simp [allPages, allIds]
  | cons y rest ih => cases y with
    | mk b ps =>
      simp only [allPages, allIds]
      exact (List.Sublist.append_left ih ps).cons b

theorem browserId_mem_allIds {bs : List (Nat × List Nat)} {b : Nat} {ps : List Nat}
    (h : (b, ps) ∈ bs) : b ∈ allIds bs := by
  induction bs with
  | nil => cases h
  | cons y rest ih =>
    cases y with
    | mk b0 ps0 =>
      rcases List.mem_cons.mp h with h | h
      · cases h; simp [allIds]
      · simp [allIds, List.mem_append, ih h]

theorem page_mem_allPages {bs : List (Nat × List Nat)} {b : Nat} {ps : List Nat} {p : Nat}
    (h : (b, ps) ∈ bs) (hp : p ∈ ps) : p ∈ allPages bs := by
  induction bs with
  | nil => cases h
  | cons y rest ih =>
    cases y with
    | mk b0 ps0 =>
      rcases List.mem_cons.mp h with h | h
      · cases h; simp [allPages, List.mem_append, hp]
      · simp [allPages, List.mem_append, ih h]

/-! ### Characterising the acquire scan -/

theorem scanAcquire_eq_some {T pid : Nat} :
    ∀ {bs bs' : List (Nat × List Nat)} {b : Nat}, scanAcquire T pid bs = some (bs', b) →
    ∃ pre ps post, bs = pre ++ (b, ps) :: post ∧ ps.length < T ∧
      (∀ y ∈ pre, ¬ y.2.length < T) ∧ bs' = pre ++ (b, ps ++ [pid]) :: post
  | [], _, _, h => by simp [scanAcquire] at h
  | (b0, ps0) :: rest, bs', b, h => by
    by_cases hlt : ps0.length < T
    · simp only [scanAcquire, if_pos hlt, Option.some.injEq, Prod.mk.injEq] at h
      refine ⟨[], ps0, rest, ?_, hlt, by simp, ?_⟩
      · simp [← h.2]
      · simp [← h.1, ← h.2]
    · simp only [scanAcquire, if_neg hlt] at h
      cases hrec : scanAcquire T pid rest with
      | none => rw [hrec] at h; cases h
      | some v =>
        cases v with
        | mk rest' b' =>
          rw [hrec] at h
          simp only [Option.some.injEq, Prod.mk.injEq] at h
          obtain ⟨pre, ps, post, hbs, hps, hpre, hbs'⟩ := scanAcquire_eq_some hrec
          refine ⟨(b0, ps0) :: pre, ps, post, ?_, hps, ?_, ?_⟩
          · simp [hbs, h.2]
          · intro y hy
            rcases List.mem_cons.mp hy with hy | hy
            · cases hy; exact hlt
            · exact hpre y hy
          · simp [← h.1, hbs', h.2]

theorem scanAcquire_first {T pid : Nat} :
    ∀ (pre : List (Nat × List Nat)) {b : Nat} {ps : List Nat} {post : List (Nat × List Nat)},
    (∀ y ∈ pre, ¬ y.2.length < T) → ps.length < T →
    scanAcquire T pid (pre ++ (b, ps) :: post) = some (pre ++ (b, ps ++ [pid]) :: post, b)
  | [], b, ps, post, _, hps => by simp [scanAcquire, hps]
  | (b0, ps0) :: pre, b, ps, post, hpre, hps => by
    have h0 : ¬ ps0.length < T := hpre (b0, ps0) (List.mem_cons_self _ _)
    have hrec := @scanAcquire_first T pid pre b ps post
      (fun y hy => hpre y (List.mem_cons_of_mem _ hy)) hps
    simp only [List.cons_append, scanAcquire, if_neg h0, List.append_eq, hrec]

theorem scanAcquire_eq_none {T pid : Nat} :
    ∀ {bs : List (Nat × List Nat)}, scanAcquire T pid bs = none ↔ ∀ y ∈ bs, ¬ y.2.length < T
  | [] => by simp [scanAcquire]
  | (b0, ps0) :: rest => by
    constructor
    · intro h y hy
      by_cases hlt : ps0.length < T
      · simp [scanAcquire, hlt] at h
      · rcases List.mem_cons.mp hy with hy | hy
        · cases hy; exact hlt
        · simp only [scanAcquire, if_neg hlt] at h
          cases hrec : scanAcquire T pid rest with
          | none => exact (scanAcquire_eq_none.mp hrec) y hy
          | some v => cases v; rw [hrec] at h; cases h
    · intro h
      have h0 : ¬ ps0.length < T := h (b0, ps0) (List.mem_cons_self _ _)
      have hrest : scanAcquire T pid rest = none :=
        scanAcquire_eq_none.mpr (fun y hy => h y (List.mem_cons_of_mem _ hy))
      simp [scanAcquire, h0, hrest]

theorem allIds_scanAcquire {T pid : Nat} {bs bs' : List (Nat × List Nat)} {b : Nat}
    (h : scanAcquire T pid bs = some (bs', b)) :
    List.Perm (allIds bs') (pid :: allIds bs) := by
  obtain ⟨pre, ps, post, hbs, _, _, hbs'⟩ := scanAcquire_eq_some h
  subst hbs hbs'
  have step2 : List.Perm (b :: (ps ++ pid :: allIds post))
      (b :: pid :: (ps ++ allIds post)) := List.Perm.cons b List.perm_middle
  have step3 : List.Perm (b :: pid :: (ps ++ allIds post))
      (pid :: b :: (ps ++ allIds post)) := List.Perm.swap pid b _
  have step4 := List.Perm.append_left (allIds pre) (step2.trans step3)
  have step5 : List.Perm (allIds pre ++ (pid :: (b :: (ps ++ allIds post))))
      (pid :: (allIds pre ++ (b :: (ps ++ allIds post)))) := List.perm_middle
  have hfin := step4.trans step5
  simpa [allIds_append, allIds, List.append_assoc] using hfin

theorem scanAcquire_length {T pid : Nat} {bs bs' : List (Nat × List Nat)} {b : Nat}
    (h : scanAcquire T pid bs = some (bs', b)) : bs'.length = bs.length := by
  obtain ⟨pre, ps, post, hbs, _, _, hbs'⟩ := scanAcquire_eq_some h
  subst hbs hbs'; simp

theorem scanAcquire_tabs {cfg : PoolCfg} {pid : Nat} {bs bs' : List (Nat × List Nat)} {b : Nat}
    (h : scanAcquire cfg.maxTabs pid bs = some (bs', b))
    (htabs : ∀ y ∈ bs, y.2.length ≤ cfg.maxTabs) :
    ∀ y ∈ bs', y.2.length ≤ cfg.maxTabs := by
  obtain ⟨pre, ps, post, hbs, hps, _, hbs'⟩ := scanAcquire_eq_some h
  subst hbs hbs'
  intro y hy
  rcases List.mem_append.mp hy with hy | hy
  · exact htabs y (List.mem_append.mpr (Or.inl hy))
  · rcases List.mem_cons.mp hy with hy | hy
    · subst hy; simpa using hps
    · exact htabs y (List.mem_append.mpr (Or.inr (List.mem_cons_of_mem _ hy)))

/-! ### Characterising the release scan -/

theorem releaseScan_sublist (p : Nat) :
    ∀ bs : List (Nat × List Nat), List.Sublist (allIds (releaseScan p bs)) (allIds bs)
  | [] => by simp [releaseScan]
  | (b, ps) :: rest => by
    by_cases hp : p ∈ ps
    · by_cases he : ps.erase p = []
      · simp only [releaseScan, if_pos hp, if_pos he]
        exact List.sublist_append_right (b :: ps) (allIds rest) |>.trans (by simp [allIds])
      · simp only [releaseScan, if_pos hp, if_neg he, allIds]
        exact ((List.erase_sublist p ps).append_right (allIds rest)).cons₂ b
    · simp only [releaseScan, if_neg hp, allIds]
      exact ((releaseScan_sublist p rest).append_left ps).cons₂ b

theorem releaseScan_tabs {T p : Nat} {bs : List (Nat × List Nat)}
    (htabs : ∀ y ∈ bs, y.2.length ≤ T) :
    ∀ y ∈ releaseScan p bs, y.2.length ≤ T := by
  induction bs with
  | nil => intro y hy; cases hy
  | cons z rest ih =>
    cases z with
    | mk b ps =>
      have hz : ps.length ≤ T := htabs (b, ps) (List.mem_cons_self _ _)
      have hrest : ∀ y ∈ rest, y.2.length ≤ T :=
        fun y hy => htabs y (List.mem_cons_of_mem _ hy)
      intro y hy
      by_cases hp : p ∈ ps
      · by_cases he : ps.erase p = []
        · simp only [releaseScan, if_pos hp, if_pos he] at hy
          exact hrest y hy
        · simp only [releaseScan, if_pos hp, if_neg he] at hy
          rcases List.mem_cons.mp hy with hy | hy
          · subst hy
            exact le_trans (List.Sublist.length_le (List.erase_sublist p ps)) hz
          · exact hrest y hy
      · simp only [releaseScan, if_neg hp] at hy
        rcases List.mem_cons.mp hy with hy | hy
        · subst hy; exact hz
        · exact ih hrest y hy

theorem releaseScan_length (p : Nat) :
    ∀ bs : List (Nat × List Nat), (releaseScan p bs).length ≤ bs.length
  | [] => by simp [releaseScan]
  | (b, ps) :: rest => by
    have hr := releaseScan_length p rest
    by_cases hp : p ∈ ps
    · by_cases he : ps.erase p = []
      · simp only [releaseScan, if_pos hp, if_pos he, List.length_cons]
        omega
      · simp only [releaseScan, if_pos hp, if_neg he, List.length_cons]
        omega
    · simp only [releaseScan, if_neg hp, List.length_cons]
      omega

/-! ### Preservation of the pool invariant -/

theorem inv_acquire {cfg : PoolCfg} (hT : 0 < cfg.maxTabs) {s s' : PoolState} {b p : Nat}
    (hInv : PoolInv cfg s) (h : acquire cfg s = .ok (s', b, p)) : PoolInv cfg s' := by
  unfold acquire at h
  cases hscan : scanAcquire cfg.maxTabs s.nextId s.browsers with
  | some v =>
    cases v with
    | mk bs' b0 =>
      rw [hscan] at h
      simp only [Except.ok.injEq, Prod.mk.injEq] at h
      obtain ⟨hs', hb, hp⟩ := h
      subst hs' hb hp
      have hperm := allIds_scanAcquire hscan
      have hfresh : s.nextId ∉ allIds s.browsers := fun hmem =>
        lt_irrefl _ (hInv.bound _ hmem)
      refine ⟨?_, ?_, ?_, ?_⟩
      · simpa [scanAcquire_length hscan] using hInv.nb
      · exact scanAcquire_tabs hscan hInv.tabs
      · intro i hi
        have hi' : i ∈ allIds bs' := hi
        show i < s.nextId + 1
        rcases List.mem_cons.mp (hperm.mem_iff.mp hi') with rfl | hmem
        · omega
        · exact Nat.lt_succ_of_lt (hInv.bound i hmem)
      · exact hperm.nodup_iff.mpr (List.nodup_cons.mpr ⟨hfresh, hInv.nodup⟩)
  | none =>
    rw [hscan] at h
    by_cases hlen : s.browsers.length < cfg.maxBrowsers
    · simp only [if_pos hlen, Except.ok.injEq, Prod.mk.injEq] at h
      obtain ⟨hs', hb, hp⟩ := h
      subst hs' hb hp
      have hids : allIds (s.browsers ++ [(s.nextId, [s.nextId + 1])]) =
          allIds s.browsers ++ [s.nextId, s.nextId + 1] := by
        simp [allIds_append, allIds]
      refine ⟨?_, ?_, ?_, ?_⟩
      · simpa using hlen
      · intro y hy
        have hy' : y ∈ s.browsers ++ [(s.nextId, [s.nextId + 1])] := hy
        rcases List.mem_append.mp hy' with hm | hm
        · exact hInv.tabs y hm
        · simp only [List.mem_singleton] at hm
          subst hm; simpa using hT
      · intro i hi
        have hi' : i ∈ allIds (s.browsers ++ [(s.nextId, [s.nextId + 1])]) := hi
        rw [hids] at hi'
        show i < s.nextId + 2
        rcases List.mem_append.mp hi' with hm | hm
        · have := hInv.bound i hm; omega
        · simp only [List.mem_cons, List.not_mem_nil, or_false] at hm
          omega
      · show (allIds (s.browsers ++ [(s.nextId, [s.nextId + 1])])).Nodup
        rw [hids]
        refine List.nodup_append.mpr ⟨hInv.nodup, ?_, ?_⟩
        · simp
        · intro i hi
          have hlt := hInv.bound i hi
          intro hm
          simp only [List.mem_cons, List.not_mem_nil, or_false] at hm
          omega
    · simp [if_neg hlen] at h

theorem inv_release {cfg : PoolCfg} {s : PoolState} (hInv : PoolInv cfg s)
    (f1 f2 : Bool) (p : Nat) : PoolInv cfg (release f1 f2 p s) := by
  have hsub := releaseScan_sublist p s.browsers
  refine ⟨?_, ?_, ?_, ?_⟩
  · exact le_trans (releaseScan_length p s.browsers) hInv.nb
  · exact releaseScan_tabs hInv.tabs
  · intro i hi
    exact hInv.bound i (hsub.subset hi)
  · exact hInv.nodup.sublist hsub

theorem inv_applyOp {cfg : PoolCfg} (hT : 0 < cfg.maxTabs) {s : PoolState}
    (hInv : PoolInv cfg s) (op : PoolOp) : PoolInv cfg (applyOp cfg s op) := by
  cases op with
  | acq =>
    unfold applyOp
    cases h : acquire cfg s with
    | ok v =>
      cases v with
      | mk s' bp => cases bp with
        | mk b p => exact inv_acquire hT hInv h
    | error e => exact hInv
  | rel f1 f2 p => exact inv_release hInv f1 f2 p

theorem inv_empty (cfg : PoolCfg) : PoolInv cfg emptyPool :=
  ⟨by simp [emptyPool], by simp [emptyPool], by simp [emptyPool, allIds],
   by simp [emptyPool, allIds]⟩

theorem inv_runOps {cfg : PoolCfg} (hT : 0 < cfg.maxTabs) (ops : List PoolOp) :
    PoolInv cfg (runOps cfg ops) := by
  suffices h : ∀ s, PoolInv cfg s → PoolInv cfg (ops.foldl (applyOp cfg) s) from
    h emptyPool (inv_empty cfg)
  induction ops with
  | nil => intro s hs; exact hs
  | cons op rest ih =>
    intro s hs
    exact ih _ (inv_applyOp hT hs op)

/-! ### From the invariant to the claimed properties -/

theorem allPages_length_le {T : Nat} :
    ∀ {bs : List (Nat × List Nat)}, (∀ y ∈ bs, y.2.length ≤ T) →
    (allPages bs).length ≤ bs.length * T
  | [], _ => by simp [allPages]
  | (b, ps) :: rest, h => by
    have h1 : ps.length ≤ T := h (b, ps) (List.mem_cons_self _ _)
    have h2 : (allPages rest).length ≤ rest.length * T :=
      allPages_length_le (fun y hy => h y (List.mem_cons_of_mem _ hy))
    simp only [allPages, List.length_append, List.length_cons, Nat.succ_mul]
    omega

theorem totalPages_le {cfg : PoolCfg} {s : PoolState} (hInv : PoolInv cfg s) :
    totalPages s ≤ cfg.maxBrowsers * cfg.maxTabs := by
  calc totalPages s ≤ s.browsers.length * cfg.maxTabs := allPages_length_le hInv.tabs
    _ ≤ cfg.maxBrowsers * cfg.maxTabs := Nat.mul_le_mul_right _ hInv.nb

theorem ownerCount_eq_zero {p : Nat} :
    ∀ {bs : List (Nat × List Nat)}, p ∉ allPages bs → ownerCount p bs = 0
  | [], _ => by simp [ownerCount]
  | (b, ps) :: rest, h => by
    simp only [allPages, List.mem_append, not_or] at h
    have := ownerCount_eq_zero (p := p) h.2
    simp only [ownerCount, List.countP_cons] at this ⊢
    simp [h.1, this]

theorem ownerCount_eq_one {p : Nat} :
    ∀ {bs : List (Nat × List Nat)}, (allPages bs).Nodup → p ∈ allPages bs →
    ownerCount p bs = 1
  | [], _, hp => by simp [allPages] at hp
  | (b, ps) :: rest, hnd, hp => by
    simp only [allPages] at hnd hp
    have hdisj := List.disjoint_of_nodup_append hnd
    rcases List.mem_append.mp hp with hp | hp
    · have hnot : p ∉ allPages rest := fun hmem => hdisj hp hmem
      have h0 := ownerCount_eq_zero (p := p) hnot
      simp only [ownerCount, List.countP_cons] at h0 ⊢
      simp [hp, h0]
    · have hnot : p ∉ ps := fun hmem => hdisj hmem hp
      have h1 := ownerCount_eq_one (List.Nodup.of_append_right hnd) hp
      simp only [ownerCount, List.countP_cons] at h1 ⊢
      simp [hnot, h1]

/-- **C1.** For every sequence of acquire/release calls on a pool with
positive per-browser tab capacity (as `Config.validate` guarantees for
every pool the repository constructs), at every point between calls the
total number of registered pages is at most
`max_browsers * max_tabs_per_browser`, and every registered page appears in
exactly one tracked browser's page list. -/
theorem C1_pool_invariant (cfg : PoolCfg) (hT : 0 < cfg.maxTabs) (ops : List PoolOp) :
    totalPages (runOps cfg ops) ≤ cfg.maxBrowsers * cfg.maxTabs ∧
    ∀ p, p ∈ allPages (runOps cfg ops).browsers →
      ownerCount p (runOps cfg ops).browsers = 1 := by
  have hInv := inv_runOps hT ops
  refine ⟨totalPages_le hInv, fun p hp => ?_⟩
  exact ownerCount_eq_one (hInv.nodup.sublist (allPages_sublist _)) hp

/-- Witness for C1 at a pool with the repository's default capacities
(4 browsers, 8 tabs) and a concrete call sequence. -/
theorem C1_pool_invariant_witness :
    0 < (⟨4, 8⟩ : PoolCfg).maxTabs ∧
    (totalPages (runOps ⟨4, 8⟩ [.acq, .acq, .rel false false 1, .acq]) ≤
        (⟨4, 8⟩ : PoolCfg).maxBrowsers * (⟨4, 8⟩ : PoolCfg).maxTabs ∧
      ∀ p, p ∈ allPages (runOps ⟨4, 8⟩ [.acq, .acq, .rel false false 1, .acq]).browsers →
        ownerCount p (runOps ⟨4, 8⟩ [.acq, .acq, .rel false false 1, .acq]).browsers = 1) :=
  ⟨by decide, C1_pool_invariant ⟨4, 8⟩ (by decide) [.acq, .acq, .rel false false 1, .acq]⟩

/-! ### Release deregisters pages and reclaims empty browsers (C3) -/

theorem fst_mem_allIds : ∀ {bs : List (Nat × List Nat)} {b : Nat},
    b ∈ bs.map Prod.fst → b ∈ allIds bs
  | [], _, h => by simp at h
  | (b0, ps0) :: rest, b, h => by
    simp only [List.map_cons, List.mem_cons] at h
    rcases h with h | h
    · simp [allIds, h]
    · simp [allIds, List.mem_append, fst_mem_allIds h]

theorem releaseScan_not_tracked {p : Nat} :
    ∀ {bs : List (Nat × List Nat)}, (allPages bs).Nodup →
    p ∉ allPages (releaseScan p bs)
  | [], _ => by simp [releaseScan, allPages]
  | (b, ps) :: rest, hnd => by
    simp only [allPages] at hnd
    have hdisj := List.disjoint_of_nodup_append hnd
    by_cases hp : p ∈ ps
    · have hnotrest : p ∉ allPages rest := fun hmem => hdisj hp hmem
      by_cases he : ps.erase p = []
      · simp only [releaseScan, if_pos hp, if_pos he]
        exact hnotrest
      · simp only [releaseScan, if_pos hp, if_neg he, allPages, List.mem_append]
        push_neg
        refine ⟨?_, hnotrest⟩
        exact (List.Nodup.mem_erase_iff (List.Nodup.of_append_left hnd)).not.mpr
          (by simp)
    · have hrec := releaseScan_not_tracked (p := p) (List.Nodup.of_append_right hnd)
      simp only [releaseScan, if_neg hp, allPages, List.mem_append]
      push_neg
      exact ⟨hp, hrec⟩

theorem releaseScan_removes_browser {p b : Nat} {ps : List Nat} :
    ∀ {bs : List (Nat × List Nat)}, (allIds bs).Nodup → (b, ps) ∈ bs →
    p ∈ ps → ps.erase p = [] → b ∉ (releaseScan p bs).map Prod.fst
  | [], _, hmem, _, _ => by cases hmem
  | (b0, ps0) :: rest, hnd, hmem, hp, he => by
    simp only [allIds, List.cons_append] at hnd
    rw [List.nodup_cons] at hnd
    obtain ⟨hb0, hnd'⟩ := hnd
    rcases List.mem_cons.mp hmem with heq | hmem'
    · injection heq with h1 h2
      subst h1 h2
      simp only [releaseScan, if_pos hp, if_pos he]
      intro hcontra
      exact hb0 (List.mem_append.mpr (Or.inr (fst_mem_allIds hcontra)))
    · have hpages : p ∈ allPages rest := page_mem_allPages hmem' hp
      have hdisj := List.disjoint_of_nodup_append hnd'
      have hp0 : p ∉ ps0 := fun hmem0 =>
        hdisj hmem0 ((allPages_sublist rest).subset hpages)
      simp only [releaseScan, if_neg hp0, List.map_cons, List.mem_cons]
      push_neg
      constructor
      · intro hcontra
        subst hcontra
        exact hb0 (List.mem_append.mpr (Or.inr (browserId_mem_allIds hmem')))
      · exact releaseScan_removes_browser (List.Nodup.of_append_right hnd') hmem' hp he

theorem acquire_ok_browser {cfg : PoolCfg} {s s' : PoolState} {br pg : Nat}
    (h : acquire cfg s = .ok (s', br, pg)) :
    br ∈ s.browsers.map Prod.fst ∨ br = s.nextId := by
  unfold acquire at h
  cases hscan : scanAcquire cfg.maxTabs s.nextId s.browsers with
  | some v =>
    cases v with
    | mk bs' b0 =>
      rw [hscan] at h
      simp only [Except.ok.injEq, Prod.mk.injEq] at h
      obtain ⟨_, hb, _⟩ := h
      subst hb
      obtain ⟨pre, ps, post, hbs, _, _, _⟩ := scanAcquire_eq_some hscan
      left
      rw [hbs]
      simp
  | none =>
    rw [hscan] at h
    by_cases hlen : s.browsers.length < cfg.maxBrowsers
    · simp only [if_pos hlen, Except.ok.injEq, Prod.mk.injEq] at h
      exact Or.inr h.2.1.symm
    · simp [if_neg hlen] at h

/-- **C3.** `release(page)` always deregisters a tracked page — whether or
not `page.close()` / `browser.close()` raise (the exceptions are swallowed,
so the resulting pool state does not even depend on them) — and when the
owning browser's page list thereby becomes empty, the browser itself is
removed from the tracked state, so a subsequent successful `acquire`
returns a browser distinct from the reclaimed one.  The two `Nodup`/bound
hypotheses are the pool's internal invariant, which the invariant-preservation
lemmas above show holds in every reachable state. -/
theorem C3_release_deregisters (cfg : PoolCfg) (s : PoolState) (p b : Nat) (ps : List Nat)
    (hnd : (allIds s.browsers).Nodup)
    (hbound : ∀ i ∈ allIds s.browsers, i < s.nextId)
    (hmem : (b, ps) ∈ s.browsers) (hp : p ∈ ps) :
    (∀ f1 f2, p ∉ allPages (release f1 f2 p s).browsers) ∧
    (∀ f1 f2 f1' f2', release f1 f2 p s = release f1' f2' p s) ∧
    (ps.erase p = [] → ∀ f1 f2, b ∉ (release f1 f2 p s).browsers.map Prod.fst) ∧
    (ps.erase p = [] → ∀ f1 f2 s' br pg,
      acquire cfg (release f1 f2 p s) = .ok (s', br, pg) → br ≠ b) := by
  refine ⟨?_, fun _ _ _ _ => rfl, ?_, ?_⟩
  · intro f1 f2
    exact releaseScan_not_tracked (hnd.sublist (allPages_sublist _))
  · intro he f1 f2
    exact releaseScan_removes_browser hnd hmem hp he
  · intro he f1 f2 s' br pg hacq
    rcases acquire_ok_browser hacq with hbr | hbr
    · intro hcontra
      subst hcontra
      exact releaseScan_removes_browser hnd hmem hp he hbr
    · intro hcontra
      subst hcontra
      have hblt : br < s.nextId := hbound br (browserId_mem_allIds hmem)
      have hnx : (release f1 f2 p s).nextId = s.nextId := rfl
      rw [hnx] at hbr
      omega

/-- Witness for C3: a pool tracking one browser (handle 0) with a single
page (handle 1); releasing that page empties and removes the browser, and
the next acquire launches a fresh browser. -/
theorem C3_release_deregisters_witness :
    ((allIds (⟨[(0, [1])], 2, true⟩ : PoolState).browsers).Nodup ∧
      (∀ i ∈ allIds (⟨[(0, [1])], 2, true⟩ : PoolState).browsers, i < 2) ∧
      (0, [1]) ∈ (⟨[(0, [1])], 2, true⟩ : PoolState).browsers ∧ 1 ∈ [1]) ∧
    ((∀ f1 f2, 1 ∉ allPages (release f1 f2 1 ⟨[(0, [1])], 2, true⟩).browsers) ∧
      (∀ f1 f2 f1' f2',
        release f1 f2 1 (⟨[(0, [1])], 2, true⟩ : PoolState) =
          release f1' f2' 1 ⟨[(0, [1])], 2, true⟩) ∧
      (List.erase [1] 1 = [] → ∀ f1 f2,
        0 ∉ (release f1 f2 1 ⟨[(0, [1])], 2, true⟩).browsers.map Prod.fst) ∧
      (List.erase [1] 1 = [] → ∀ f1 f2 s' br pg,
        acquire ⟨4, 8⟩ (release f1 f2 1 ⟨[(0, [1])], 2, true⟩) = .ok (s', br, pg) →
          br ≠ 0)) :=
  ⟨⟨by decide, by decide, by decide, by decide⟩,
    C3_release_deregisters ⟨4, 8⟩ ⟨[(0, [1])], 2, true⟩ 1 0 [1]
      (by decide) (by decide) (by decide) (by decide)⟩

/-! ### The first-fit acquisition discipline (C2) -/

/-- The pool after `k` consecutive `acquire()` calls starting from the
empty pool (a failed call leaves the state unchanged, as the
`RuntimeError` propagates to the caller before any mutation). -/
def acquireN (cfg : PoolCfg) : Nat → PoolState
  | 0 => emptyPool
  | k + 1 =>
    match acquire cfg (acquireN cfg k) with
    | .ok (s', _, _) => s'
    | .error _ => acquireN cfg k

/-- The per-browser page counts, in insertion order. -/
def lens (s : PoolState) : List Nat := s.browsers.map (fun y => y.2.length)

/-- The acquire scan as seen through page counts alone. -/
def scanLens (T : Nat) : List Nat → Option (List Nat)
  | [] => none
  | n :: rest =>
    if n < T then some ((n + 1) :: rest)
    else (scanLens T rest).map (fun l => n :: l)

/-- One `acquire` step as seen through page counts alone. -/
def stepLens (cfg : PoolCfg) (ls : List Nat) : Option (List Nat) :=
  match scanLens cfg.maxTabs ls with
  | some ls' => some ls'
  | none => if ls.length < cfg.maxBrowsers then some (ls ++ [1]) else none

theorem scanLens_of_scan {T pid : Nat} :
    ∀ {bs : List (Nat × List Nat)},
    scanLens T (bs.map (fun y => y.2.length)) =
      (scanAcquire T pid bs).map (fun v => v.1.map (fun y => y.2.length))
  | [] => rfl
  | (b, ps) :: rest => by
    by_cases hlt : ps.length < T
    · simp [scanLens, scanAcquire, hlt]
    · simp only [List.map_cons, scanLens, scanAcquire, if_neg hlt]
      rw [@scanLens_of_scan T pid rest]
      cases scanAcquire T pid rest with
      | none => rfl
      | some v => cases v; rfl

theorem stepLens_acquire_ok {cfg : PoolCfg} {s s' : PoolState} {b p : Nat}
    (h : acquire cfg s = .ok (s', b, p)) : stepLens cfg (lens s) = some (lens s') := by
  unfold acquire at h
  cases hscan : scanAcquire cfg.maxTabs s.nextId s.browsers with
  | some v =>
    cases v with
    | mk bs' b0 =>
      rw [hscan] at h
      simp only [Except.ok.injEq, Prod.mk.injEq] at h
      obtain ⟨hs', _, _⟩ := h
      subst hs'
      unfold stepLens lens
      rw [@scanLens_of_scan cfg.maxTabs s.nextId s.browsers, hscan]
      rfl
  | none =>
    rw [hscan] at h
    by_cases hlen : s.browsers.length < cfg.maxBrowsers
    · simp only [if_pos hlen, Except.ok.injEq, Prod.mk.injEq] at h
      obtain ⟨hs', _, _⟩ := h
      subst hs'
      unfold stepLens lens
      rw [@scanLens_of_scan cfg.maxTabs s.nextId s.browsers, hscan]
      simp [hlen]
    · simp [if_neg hlen] at h

theorem stepLens_acquire_err {cfg : PoolCfg} {s : PoolState} {e : String}
    (h : acquire cfg s = .error e) :
    stepLens cfg (lens s) = none ∧ e = poolExhaustedMsg := by
  unfold acquire at h
  cases hscan : scanAcquire cfg.maxTabs s.nextId s.browsers with
  | some v => cases v; rw [hscan] at h; cases h
  | none =>
    rw [hscan] at h
    by_cases hlen : s.browsers.length < cfg.maxBrowsers
    · simp [if_pos hlen] at h
    · simp only [if_neg hlen, Except.error.injEq] at h
      refine ⟨?_, h.symm⟩
      unfold stepLens lens
      rw [@scanLens_of_scan cfg.maxTabs s.nextId s.browsers, hscan]
      simp [hlen]

theorem acquire_ok_of_stepLens {cfg : PoolCfg} {s : PoolState} {ls' : List Nat}
    (h : stepLens cfg (lens s) = some ls') :
    ∃ s' b p, acquire cfg s = .ok (s', b, p) ∧ lens s' = ls' := by
  cases hacq : acquire cfg s with
  | ok v =>
    cases v with
    | mk s' bp =>
      cases bp with
      | mk b p =>
        have := stepLens_acquire_ok hacq
        rw [this] at h
        exact ⟨s', b, p, rfl, (Option.some.injEq .. ▸ h)⟩
  | error e =>
    have := (stepLens_acquire_err hacq).1
    rw [this] at h
    cases h

theorem acquire_err_of_stepLens {cfg : PoolCfg} {s : PoolState}
    (h : stepLens cfg (lens s) = none) :
    acquire cfg s = .error poolExhaustedMsg := by
  cases hacq : acquire cfg s with
  | ok v =>
    cases v with
    | mk s' bp =>
      cases bp with
      | mk b p =>
        have := stepLens_acquire_ok hacq
        rw [this] at h
        cases h
  | error e =>
    rw [(stepLens_acquire_err hacq).2]

/-- Shape of the page-count list after `k` acquisitions with no release:
a block of full browsers followed by at most one partially filled one. -/
def ShapeInv (cfg : PoolCfg) (k : Nat) (ls : List Nat) : Prop :=
  (∃ q, k = q * cfg.maxTabs ∧ ls = List.replicate q cfg.maxTabs) ∨
  (∃ q r, 0 < r ∧ r < cfg.maxTabs ∧ k = q * cfg.maxTabs + r ∧
    ls = List.replicate q cfg.maxTabs ++ [r])

theorem scanLens_replicate (T : Nat) :
    ∀ (q : Nat) (l : List Nat),
    scanLens T (List.replicate q T ++ l) =
      (scanLens T l).map (fun l' => List.replicate q T ++ l')
  | 0, l => by
    simp only [List.replicate, List.nil_append]
    cases scanLens T l <;> rfl
  | q + 1, l => by
    have hrec := scanLens_replicate T q l
    simp only [List.replicate_succ, List.cons_append, scanLens, List.append_eq]
    rw [if_neg (lt_irrefl T), hrec]
    cases scanLens T l <;> simp

theorem stepLens_shape {cfg : PoolCfg} {k : Nat} {ls : List Nat}
    (hT : 0 < cfg.maxTabs) (hinv : ShapeInv cfg k ls)
    (hk : k < cfg.maxBrowsers * cfg.maxTabs) :
    ∃ ls', stepLens cfg ls = some ls' ∧ ShapeInv cfg (k + 1) ls' := by
  rcases hinv with ⟨q, hk1, rfl⟩ | ⟨q, r, hr0, hrT, hk2, rfl⟩
  · have hscan : scanLens cfg.maxTabs (List.replicate q cfg.maxTabs) = none := by
      have := scanLens_replicate cfg.maxTabs q []
      simpa [scanLens] using this
    have hq : q < cfg.maxBrowsers := by
      subst hk1
      exact lt_of_mul_lt_mul_right hk (Nat.zero_le _)
    refine ⟨List.replicate q cfg.maxTabs ++ [1], ?_, ?_⟩
    · unfold stepLens
      rw [hscan]
      simp [hq]
    · by_cases hT1 : cfg.maxTabs = 1
      · left
        refine ⟨q + 1, ?_, ?_⟩
        · rw [hT1] at hk1 ⊢
          omega
        · rw [hT1, List.replicate_succ' (q) 1]
      · right
        exact ⟨q, 1, Nat.one_pos, by omega, by omega, rfl⟩
  · have hscan : scanLens cfg.maxTabs (List.replicate q cfg.maxTabs ++ [r]) =
        some (List.replicate q cfg.maxTabs ++ [r + 1]) := by
      rw [scanLens_replicate cfg.maxTabs q [r]]
      simp [scanLens, hrT]
    refine ⟨List.replicate q cfg.maxTabs ++ [r + 1], ?_, ?_⟩
    · unfold stepLens
      rw [hscan]
    · by_cases hrT1 : r + 1 = cfg.maxTabs
      · left
        refine ⟨q + 1, ?_, ?_⟩
        · rw [Nat.succ_mul]
          omega
        · rw [← hrT1, List.replicate_succ' (q) (r + 1), hrT1]
      · right
        exact ⟨q, r + 1, by omega, by omega, by omega, rfl⟩

theorem stepLens_shape_end {cfg : PoolCfg} {ls : List Nat}
    (hT : 0 < cfg.maxTabs)
    (hinv : ShapeInv cfg (cfg.maxBrowsers * cfg.maxTabs) ls) :
    stepLens cfg ls = none := by
  rcases hinv with ⟨q, hk1, rfl⟩ | ⟨q, r, hr0, hrT, hk2, rfl⟩
  · have hq : q = cfg.maxBrowsers :=
      Nat.eq_of_mul_eq_mul_right hT (by omega)
    have hscan : scanLens cfg.maxTabs (List.replicate q cfg.maxTabs) = none := by
      have := scanLens_replicate cfg.maxTabs q []
      simpa [scanLens] using this
    unfold stepLens
    rw [hscan]
    simp [hq]
  · exfalso
    rcases Nat.lt_or_ge q cfg.maxBrowsers with h | h
    · have h1 : (q + 1) * cfg.maxTabs ≤ cfg.maxBrowsers * cfg.maxTabs :=
        Nat.mul_le_mul_right _ h
      rw [Nat.succ_mul] at h1
      omega
    · have h1 : cfg.maxBrowsers * cfg.maxTabs ≤ q * cfg.maxTabs :=
        Nat.mul_le_mul_right _ h
      omega

theorem shape_acquireN (cfg : PoolCfg) (hT : 0 < cfg.maxTabs) :
    ∀ k, k ≤ cfg.maxBrowsers * cfg.maxTabs →
    ShapeInv cfg k (lens (acquireN cfg k))
  | 0, _ => Or.inl ⟨0, by simp, rfl⟩
  | k + 1, hk => by
    have hinv := shape_acquireN cfg hT k (by omega)
    obtain ⟨ls', hstep, hshape⟩ := stepLens_shape hT hinv (by omega)
    obtain ⟨s', b, p, hacq, hlens⟩ := acquire_ok_of_stepLens hstep
    have : acquireN cfg (k + 1) = s' := by
      unfold acquireN
      rw [hacq]
    rw [this, hlens]
    exact hshape

/-- **C2.** Under the pool's guard, `acquire` (a) returns a new page on the
first tracked browser (in insertion order) whose page count is below
`max_tabs_per_browser`; (b) if every tracked browser is full and fewer than
`max_browsers` are tracked, launches a new browser and returns its first
page; (c) otherwise fails with the pool-exhausted `RuntimeError`; and,
starting from the empty pool, each of the first
`max_browsers * max_tabs_per_browser` consecutive `acquire` calls succeeds
while the next one fails with the pool-exhausted error. -/
theorem C2_acquire_firstfit (cfg : PoolCfg) (hT : 0 < cfg.maxTabs) :
    (∀ (s : PoolState) (pre : List (Nat × List Nat)) (b : Nat) (ps : List Nat)
        (post : List (Nat × List Nat)),
      s.browsers = pre ++ (b, ps) :: post →
      (∀ y ∈ pre, cfg.maxTabs ≤ y.2.length) → ps.length < cfg.maxTabs →
      acquire cfg s =
        .ok (⟨pre ++ (b, ps ++ [s.nextId]) :: post, s.nextId + 1, s.playwright⟩,
          b, s.nextId)) ∧
    (∀ s : PoolState, (∀ y ∈ s.browsers, cfg.maxTabs ≤ y.2.length) →
      s.browsers.length < cfg.maxBrowsers →
      acquire cfg s =
        .ok (⟨s.browsers ++ [(s.nextId, [s.nextId + 1])], s.nextId + 2, s.playwright⟩,
          s.nextId, s.nextId + 1)) ∧
    (∀ s : PoolState, (∀ y ∈ s.browsers, cfg.maxTabs ≤ y.2.length) →
      cfg.maxBrowsers ≤ s.browsers.length →
      acquire cfg s = .error poolExhaustedMsg) ∧
    (∀ k, k < cfg.maxBrowsers * cfg.maxTabs →
      ∃ s' b p, acquire cfg (acquireN cfg k) = .ok (s', b, p)) ∧
    acquire cfg (acquireN cfg (cfg.maxBrowsers * cfg.maxTabs)) =
      .error poolExhaustedMsg := by
  refine ⟨?_, ?_, ?_, ?_, ?_⟩
  · intro s pre b ps post hbs hpre hps
    have hscan := @scanAcquire_first cfg.maxTabs s.nextId pre b ps post
      (fun y hy => not_lt.mpr (hpre y hy)) hps
    unfold acquire
    rw [hbs, hscan]
  · intro s hfull hlen
    have hscan : scanAcquire cfg.maxTabs s.nextId s.browsers = none :=
      scanAcquire_eq_none.mpr (fun y hy => not_lt.mpr (hfull y hy))
    unfold acquire
    rw [hscan]
    simp [hlen]
  · intro s hfull hlen
    have hscan : scanAcquire cfg.maxTabs s.nextId s.browsers = none :=
      scanAcquire_eq_none.mpr (fun y hy => not_lt.mpr (hfull y hy))
    unfold acquire
    rw [hscan]
    simp [Nat.not_lt.mpr hlen]
  · intro k hk
    have hinv := shape_acquireN cfg hT k (by omega)
    obtain ⟨ls', hstep, _⟩ := stepLens_shape hT hinv hk
    obtain ⟨s', b, p, hacq, _⟩ := acquire_ok_of_stepLens hstep
    exact ⟨s', b, p, hacq⟩
  · have hinv := shape_acquireN cfg hT (cfg.maxBrowsers * cfg.maxTabs) le_rfl
    exact acquire_err_of_stepLens (stepLens_shape_end hT hinv)

/-- Witness for C2 at capacities 2 browsers and 2 tabs: after 4 acquires
the 5th fails with the pool-exhausted error. -/
theorem C2_acquire_firstfit_witness :
    0 < (⟨2, 2⟩ : PoolCfg).maxTabs ∧
    ((∀ (s : PoolState) (pre : List (Nat × List Nat)) (b : Nat) (ps : List Nat)
        (post : List (Nat × List Nat)),
      s.browsers = pre ++ (b, ps) :: post →
      (∀ y ∈ pre, (⟨2, 2⟩ : PoolCfg).maxTabs ≤ y.2.length) →
      ps.length < (⟨2, 2⟩ : PoolCfg).maxTabs →
      acquire ⟨2, 2⟩ s =
        .ok (⟨pre ++ (b, ps ++ [s.nextId]) :: post, s.nextId + 1, s.playwright⟩,
          b, s.nextId)) ∧
    (∀ s : PoolState, (∀ y ∈ s.browsers, (⟨2, 2⟩ : PoolCfg).maxTabs ≤ y.2.length) →
      s.browsers.length < (⟨2, 2⟩ : PoolCfg).maxBrowsers →
      acquire ⟨2, 2⟩ s =
        .ok (⟨s.browsers ++ [(s.nextId, [s.nextId + 1])], s.nextId + 2, s.playwright⟩,
          s.nextId, s.nextId + 1)) ∧
    (∀ s : PoolState, (∀ y ∈ s.browsers, (⟨2, 2⟩ : PoolCfg).maxTabs ≤ y.2.length) →
      (⟨2, 2⟩ : PoolCfg).maxBrowsers ≤ s.browsers.length →
      acquire ⟨2, 2⟩ s = .error poolExhaustedMsg) ∧
    (∀ k, k < (⟨2, 2⟩ : PoolCfg).maxBrowsers * (⟨2, 2⟩ : PoolCfg).maxTabs →
      ∃ s' b p, acquire ⟨2, 2⟩ (acquireN ⟨2, 2⟩ k) = .ok (s', b, p)) ∧
    acquire ⟨2, 2⟩ (acquireN ⟨2, 2⟩ ((⟨2, 2⟩ : PoolCfg).maxBrowsers * (⟨2, 2⟩ : PoolCfg).maxTabs)) =
      .error poolExhaustedMsg) :=
  ⟨by decide, C2_acquire_firstfit ⟨2, 2⟩ (by decide)⟩

/-! ### close() (C9) -/

/-- **C9.** After any sequence of acquire/release calls, `close()` leaves
zero tracked browsers and zero tracked pages and clears the driver; calling
it again (or on a pool where nothing was ever acquired — `ops = []`)
changes nothing further, and the model is a total function, mirroring the
source where every per-resource close failure is swallowed. -/
theorem C9_close_idempotent (cfg : PoolCfg) (ops : List PoolOp) :
    (closePool (runOps cfg ops)).browsers = [] ∧
    totalPages (closePool (runOps cfg ops)) = 0 ∧
    (closePool (runOps cfg ops)).playwright = false ∧
    closePool (closePool (runOps cfg ops)) = closePool (runOps cfg ops) :=
  ⟨rfl, rfl, rfl, rfl⟩

/-! ## JSON values and the Python dict operations used by the audit adapter

`json.loads` is an external library call; its behaviour is part of the
environment oracle.  The values it can produce are modelled by `Json`, and
the dict/list operations the adapter applies to them (`in`, indexing,
truthiness, arithmetic) follow Python semantics, with `TypeError`/`KeyError`
surfacing in an `Except` monad (the adapter catches them all). -/

inductive Json where
  | null : Json
  | bool (b : Bool) : Json
  | num (v : Rat) : Json
  | str (s : String) : Json
  | arr (xs : List Json) : Json
  | obj (fields : List (String × Json)) : Json

/-- Python truthiness, as used by `if result:`. -/
def jsonTruthy : Json → Bool
  | .null => false
  | .bool b => b
  | .num v => decide (v ≠ 0)
  | .str s => decide (s ≠ "")
  | .arr xs => !xs.isEmpty
  | .obj fs => !fs.isEmpty

def listHasSub (pat : List Char) : List Char → Bool
  | [] => pat.isEmpty
  | c :: rest => pat.isPrefixOf (c :: rest) || listHasSub pat rest

/-- Python `pat in s` on strings: substring containment. -/
def strHasSub (s pat : String) : Bool := listHasSub pat.data s.data

/-- Python `k in v`: key test for dicts, element test for lists,
substring test for strings, `TypeError` for the other JSON values. -/
def pyIn (k : String) : Json → Except String Bool
  | .obj fs => .ok (fs.any (fun kv => kv.1 == k))
  | .arr xs => .ok (xs.any (fun x => match x with | .str s => s == k | _ => false))
  | .str s => .ok (strHasSub s k)
  | _ => .error "TypeError: argument is not iterable"

/-- Python `v[k]` for a string key: dict lookup (`KeyError` when the key is
absent), `TypeError` on every non-dict. -/
def pyIndex (v : Json) (k : String) : Except String Json :=
  match v with
  | .obj fs =>
    match fs.find? (fun kv => kv.1 == k) with
    | some kv => .ok kv.2
    | none => .error ("KeyError: " ++ k)
  | _ => .error "TypeError: value is not subscriptable"

/-- Pure dict lookup, used to state which fields the source JSON carries. -/
def jGet (v : Json) (k : String) : Option Json :=
  match v with
  | .obj fs => (fs.find? (fun kv => kv.1 == k)).map (fun kv => kv.2)
  | _ => none

theorem pyIndex_ok_jGet {v : Json} {k : String} {u : Json}
    (h : pyIndex v k = .ok u) : jGet v k = some u := by
  cases v <;> simp only [pyIndex] at h <;> try cases h
  case obj fs =>
    cases hf : fs.find? (fun kv => kv.1 == k) with
    | none => rw [hf] at h; cases h
    | some kv =>
      rw [hf] at h
      simp only [Except.ok.injEq] at h
      simp [jGet, hf, h]

theorem pyIn_false_jGet {v : Json} {k : String}
    (h : pyIn k v = .ok false) : jGet v k = none := by
  cases v <;> simp only [pyIn] at h <;> try cases h
  case str s => simp [jGet]
  case arr xs => simp [jGet]
  case obj fs =>
    simp only [Except.ok.injEq] at h
    have hfind : fs.find? (fun kv => kv.1 == k) = none := by
      rw [List.find?_eq_none]
      intro kv hkv
      have := List.any_eq_false.mp h kv hkv
      simpa using this
    simp [jGet, hfind]

/-! ## PerformanceAuditClient: get_lighthouse_metrics
(src/apps/agent/analyzer.py lines 95-222) -/

/-- The normalized audit record.  Per the source, `cls_value` and `tbt_ms`
are taken from the JSON verbatim (no arithmetic), while the paint timings
and the score go through `/1000` and `*100`. -/
structure LHResult where
  available : Bool
  fcp_seconds : Option Rat := none
  lcp_seconds : Option Rat := none
  cls_value : Option Json := none
  tbt_ms : Option Json := none
  performance_score : Option Rat := none
  raw : Option Json := none

/-- `{"available": False}`. -/
def lighthouseUnavailable : LHResult := { available := false }

/-- `numericValue / 1000` (`fcp_ms / 1000`): numbers (and booleans, which
Python treats as integers) divide; anything else raises `TypeError`. -/
def msToSeconds : Option Json → Except String (Option Rat)
  | none => .ok none
  | some (.num v) => .ok (some (v / 1000))
  | some (.bool b) => .ok (some ((if b then (1 : Rat) else 0) / 1000))
  | some _ => .error "TypeError: unsupported operand"

/-- `score * 100`: numbers (and booleans) multiply; anything else raises
`TypeError`. -/
def scoreTimes100 : Json → Except String Rat
  | .num v => .ok (v * 100)
  | .bool b => .ok (if b then 100 else 0)
  | _ => .error "TypeError: unsupported operand"

/-- One guarded metric read: `if key in audits:` then `audits[key]`,
then `if 'numericValue' in it:` take the value. -/
def getMetric (audits : Json) (k : String) : Except String (Option Json) :=
  match pyIn k audits with
  | .error e => .error e
  | .ok false => .ok none
  | .ok true =>
    match pyIndex audits k with
    | .error e => .error e
    | .ok au =>
      match pyIn "numericValue" au with
      | .error e => .error e
      | .ok false => .ok none
      | .ok true =>
        match pyIndex au "numericValue" with
        | .error e => .error e
        | .ok nv => .ok (some nv)

/-- The `categories.performance.score * 100` read: both containment checks
are guarded, but the final `['score']` access is not, so a missing `score`
key raises `KeyError` (swallowed into `{available: False}` upstream). -/
def extractScore (v : Json) : Except String (Option Rat) :=
  match pyIn "categories" v with
  | .error e => .error e
  | .ok false => .ok none
  | .ok true =>
    match pyIndex v "categories" with
    | .error e => .error e
    | .ok cats =>
      match pyIn "performance" cats with
      | .error e => .error e
      | .ok false => .ok none
      | .ok true =>
        match pyIndex cats "performance" with
        | .error e => .error e
        | .ok perf =>
          match pyIndex perf "score" with
          | .error e => .error e
          | .ok sc =>
            match scoreTimes100 sc with
            | .error e => .error e
            | .ok n => .ok (some n)

/-- The metric-extraction block of `get_lighthouse_metrics` (lines
109-156), with Python's evaluation order: score, then FCP (with its
division), LCP, CLS, TBT. -/
def extract (v : Json) : Except String LHResult :=
  match extractScore v with
  | .error e => .error e
  | .ok score =>
    match pyIn "audits" v with
    | .error e => .error e
    | .ok false =>
      .ok { available := true, performance_score := score, raw := some v }
    | .ok true =>
      match pyIndex v "audits" with
      | .error e => .error e
      | .ok audits =>
        match getMetric audits "first-contentful-paint" with
        | .error e => .error e
        | .ok fcpRaw =>
          match msToSeconds fcpRaw with
          | .error e => .error e
          | .ok fcp =>
            match getMetric audits "largest-contentful-paint" with
            | .error e => .error e
            | .ok lcpRaw =>
              match msToSeconds lcpRaw with
              | .error e => .error e
              | .ok lcp =>
                match getMetric audits "cumulative-layout-shift" with
                | .error e => .error e
                | .ok cls =>
                  match getMetric audits "total-blocking-time" with
                  | .error e => .error e
                  | .ok tbt =>
                    .ok { available := true, fcp_seconds := fcp,
                          lcp_seconds := lcp, cls_value := cls, tbt_ms := tbt,
                          performance_score := score, raw := some v }

/-- Outcome of one `asyncio.create_subprocess_exec` + `wait_for` run. -/
inductive ProcOutcome where
  | timeout : ProcOutcome
  | done (returncode : Int) (stdout stderr : String) : ProcOutcome
deriving DecidableEq

/-- Environment oracle for the audit adapter: the Docker reachability check
(`_ensure_docker_running`, OS-coupled glue), the subprocess outcome per
URL, and `json.loads` (external library). -/
structure AuditWorld where
  dockerOk : Bool
  proc : String → ProcOutcome
  jsonLoads : String → Option Json

/-- Python whitespace characters removed by `str.strip()`. -/
def isPySpace (c : Char) : Bool :=
  c == ' ' || c == '\t' || c == '\n' || c == '\x0b' || c == '\x0c' || c == '\r'

/-- `stdout.decode().strip()`. -/
def pyStrip (s : String) : String :=
  String.mk (((s.data.dropWhile isPySpace).reverse.dropWhile isPySpace).reverse)

/-- `output.find('\x7b')`: character index of the first opening brace. -/
def firstBraceIdx (s : String) : Option Nat :=
  s.data.findIdx? (fun c => c == Char.ofNat 123)

/-- `output[i:]` (character slicing). -/
def strDropChars (n : Nat) (s : String) : String := String.mk (s.data.drop n)

/-- `_run_lighthouse_audit` (lines 164-222): run the Dockerised Lighthouse
command under a timeout; on exit code 0 parse the stripped stdout as JSON,
retrying from the first opening brace when direct parsing fails; `None` on
timeout, non-zero exit, or output that still does not parse. -/
def runLighthouseAudit (w : AuditWorld) (url : String) : Option Json :=
  match w.proc url with
  | .timeout => none
  | .done rc out _ =>
    if rc = 0 then
      let output := pyStrip out
      match w.jsonLoads output with
      | some v => some v
      | none =>
        match firstBraceIdx output with
        | some i =>
          match w.jsonLoads (strDropChars i output) with
          | some v => some v
          | none => none
        | none => none
    else none

/-- `get_lighthouse_metrics` (lines 95-162): Docker gate, audit run, the
`if result:` truthiness check, then metric extraction with every raised
error swallowed into `{available: False}`. -/
def getLighthouseMetrics (w : AuditWorld) (url : String) : LHResult :=
  if w.dockerOk then
    match runLighthouseAudit w url with
    | some v =>
      if jsonTruthy v then
        match extract v with
        | .ok r => r
        | .error _ => lighthouseUnavailable
      else lighthouseUnavailable
    | none => lighthouseUnavailable
  else lighthouseUnavailable

/-- Whether the source JSON carries `audits[k].numericValue`. -/
def metricPresent (v : Json) (k : String) : Option Json :=
  (jGet v "audits").bind (fun a => (jGet a k).bind (fun m => jGet m "numericValue"))

theorem glm_of_runAudit_none {w : AuditWorld} {url : String}
    (h : runLighthouseAudit w url = none) :
    getLighthouseMetrics w url = lighthouseUnavailable := by
  unfold getLighthouseMetrics
  rw [h]
  cases w.dockerOk <;> simp

theorem getMetric_absent {audits : Json} {k : String} {m : Option Json}
    (hok : getMetric audits k = .ok m)
    (habs : (jGet audits k).bind (fun x => jGet x "numericValue") = none) :
    m = none := by
  unfold getMetric at hok
  cases h1 : pyIn k audits with
  | error e => simp only [h1] at hok; cases hok
  | ok b1 =>
    cases b1 with
    | false =>
      simp only [h1, Except.ok.injEq] at hok
      exact hok.symm
    | true =>
      simp only [h1] at hok
      cases h2 : pyIndex audits k with
      | error e => simp only [h2] at hok; cases hok
      | ok au =>
        simp only [h2] at hok
        rw [pyIndex_ok_jGet h2] at habs
        have habs2 : jGet au "numericValue" = none := habs
        cases h3 : pyIn "numericValue" au with
        | error e => simp only [h3] at hok; cases hok
        | ok b3 =>
          cases b3 with
          | false =>
            simp only [h3, Except.ok.injEq] at hok
            exact hok.symm
          | true =>
            simp only [h3] at hok
            cases h4 : pyIndex au "numericValue" with
            | error e => simp only [h4] at hok; cases hok
            | ok nv =>
              rw [pyIndex_ok_jGet h4] at habs2
              cases habs2

theorem extractScore_absent {v : Json} {sc : Option Rat}
    (h : extractScore v = .ok sc)
    (habs : (jGet v "categories").bind (fun c => jGet c "performance") = none) :
    sc = none := by
  unfold extractScore at h
  cases h1 : pyIn "categories" v with
  | error e => simp only [h1] at h; cases h
  | ok b1 =>
    cases b1 with
    | false =>
      simp only [h1, Except.ok.injEq] at h
      exact h.symm
    | true =>
      simp only [h1] at h
      cases h2 : pyIndex v "categories" with
      | error e => simp only [h2] at h; cases h
      | ok cats =>
        simp only [h2] at h
        rw [pyIndex_ok_jGet h2] at habs
        have habs2 : jGet cats "performance" = none := habs
        cases h3 : pyIn "performance" cats with
        | error e => simp only [h3] at h; cases h
        | ok b3 =>
          cases b3 with
          | false =>
            simp only [h3, Except.ok.injEq] at h
            exact h.symm
          | true =>
            simp only [h3] at h
            cases h4 : pyIndex cats "performance" with
            | error e => simp only [h4] at h; cases h
            | ok perf =>
              rw [pyIndex_ok_jGet h4] at habs2
              cases habs2

theorem extract_leaves_absent_unset {v : Json} {r : LHResult}
    (hex : extract v = .ok r) :
    (metricPresent v "first-contentful-paint" = none → r.fcp_seconds = none) ∧
    (metricPresent v "largest-contentful-paint" = none → r.lcp_seconds = none) ∧
    (metricPresent v "cumulative-layout-shift" = none → r.cls_value = none) ∧
    (metricPresent v "total-blocking-time" = none → r.tbt_ms = none) ∧
    ((jGet v "categories").bind (fun c => jGet c "performance") = none →
      r.performance_score = none) := by
  unfold extract at hex
  cases hs : extractScore v with
  | error e => simp only [hs] at hex; cases hex
  | ok score =>
    simp only [hs] at hex
    cases ha : pyIn "audits" v with
    | error e => simp only [ha] at hex; cases hex
    | ok hasAudits =>
      cases hasAudits with
      | false =>
        simp only [ha, Except.ok.injEq] at hex
        subst hex
        refine ⟨fun _ => rfl, fun _ => rfl, fun _ => rfl, fun _ => rfl, ?_⟩
        intro habs
        exact extractScore_absent hs habs
      | true =>
        simp only [ha] at hex
        cases hau : pyIndex v "audits" with
        | error e => simp only [hau] at hex; cases hex
        | ok audits =>
          simp only [hau] at hex
          have hja : jGet v "audits" = some audits := pyIndex_ok_jGet hau
          have hmp : ∀ k, metricPresent v k =
              (jGet audits k).bind (fun m => jGet m "numericValue") := by
            intro k
            unfold metricPresent
            rw [hja]
            rfl
          cases hf : getMetric audits "first-contentful-paint" with
          | error e => simp only [hf] at hex; cases hex
          | ok fcpRaw =>
            simp only [hf] at hex
            cases hfs : msToSeconds fcpRaw with
            | error e => simp only [hfs] at hex; cases hex
            | ok fcp =>
              simp only [hfs] at hex
              cases hl : getMetric audits "largest-contentful-paint" with
              | error e => simp only [hl] at hex; cases hex
              | ok lcpRaw =>
                simp only [hl] at hex
                cases hls : msToSeconds lcpRaw with
                | error e => simp only [hls] at hex; cases hex
                | ok lcp =>
                  simp only [hls] at hex
                  cases hc : getMetric audits "cumulative-layout-shift" with
                  | error e => simp only [hc] at hex; cases hex
                  | ok cls =>
                    simp only [hc] at hex
                    cases ht : getMetric audits "total-blocking-time" with
                    | error e => simp only [ht] at hex; cases hex
                    | ok tbt =>
                      simp only [ht, Except.ok.injEq] at hex
                      subst hex
                      refine ⟨?_, ?_, ?_, ?_, ?_⟩
                      · intro habs
                        rw [hmp] at habs
                        have hzero := getMetric_absent hf habs
                        subst hzero
                        simp only [msToSeconds, Except.ok.injEq] at hfs
                        exact hfs.symm
                      · intro habs
                        rw [hmp] at habs
                        have hzero := getMetric_absent hl habs
                        subst hzero
                        simp only [msToSeconds, Except.ok.injEq] at hls
                        exact hls.symm
                      · intro habs
                        rw [hmp] at habs
                        exact getMetric_absent hc habs
                      · intro habs
                        rw [hmp] at habs
                        exact getMetric_absent ht habs
                      · intro habs
                        exact extractScore_absent hs habs

/-- **C6.** The audit adapter never raises past its boundary: on subprocess
timeout, non-zero exit, or output that does not parse even after retrying
from the first opening brace, it returns `{available: False}`; when direct
parsing fails but the first-brace reparse succeeds, the reparsed value is
used; and on a successful extraction every metric field absent from the
source JSON is left unset (`None`), never defaulted to zero. -/
theorem C6_audit_never_raises (w : AuditWorld) (url : String) :
    (w.proc url = .timeout → getLighthouseMetrics w url = lighthouseUnavailable) ∧
    (∀ rc out err, w.proc url = .done rc out err → rc ≠ 0 →
      getLighthouseMetrics w url = lighthouseUnavailable) ∧
    (∀ out err, w.proc url = .done 0 out err →
      w.jsonLoads (pyStrip out) = none →
      (firstBraceIdx (pyStrip out) = none ∨
        ∃ i, firstBraceIdx (pyStrip out) = some i ∧
          w.jsonLoads (strDropChars i (pyStrip out)) = none) →
      getLighthouseMetrics w url = lighthouseUnavailable) ∧
    (∀ out err i v, w.proc url = .done 0 out err →
      w.jsonLoads (pyStrip out) = none →
      firstBraceIdx (pyStrip out) = some i →
      w.jsonLoads (strDropChars i (pyStrip out)) = some v →
      runLighthouseAudit w url = some v) ∧
    (∀ v r, w.dockerOk = true → runLighthouseAudit w url = some v →
      jsonTruthy v = true → extract v = .ok r →
      getLighthouseMetrics w url = r ∧
      (metricPresent v "first-contentful-paint" = none → r.fcp_seconds = none) ∧
      (metricPresent v "largest-contentful-paint" = none → r.lcp_seconds = none) ∧
      (metricPresent v "cumulative-layout-shift" = none → r.cls_value = none) ∧
      (metricPresent v "total-blocking-time" = none → r.tbt_ms = none) ∧
      ((jGet v "categories").bind (fun c => jGet c "performance") = none →
        r.performance_score = none)) := by
  refine ⟨?_, ?_, ?_, ?_, ?_⟩
  · intro h
    apply glm_of_runAudit_none
    unfold runLighthouseAudit
    rw [h]
  · intro rc out err h hrc
    apply glm_of_runAudit_none
    unfold runLighthouseAudit
    rw [h]
    simp [hrc]
  · intro out err h hparse hretry
    apply glm_of_runAudit_none
    unfold runLighthouseAudit
    rw [h]
    rcases hretry with hb | ⟨i, hb, hp2⟩
    · simp [hparse, hb]
    · simp [hparse, hb, hp2]
  · intro out err i v h hparse hb hp2
    unfold runLighthouseAudit
    rw [h]
    simp [hparse, hb, hp2]
  · intro v r hd hrun ht hex
    constructor
    · unfold getLighthouseMetrics
      rw [hd, hrun]
      simp [ht, hex]
    · exact extract_leaves_absent_unset hex

/-- A JSON value carrying neither `categories` nor `audits` (as Lighthouse
emits when an audit is cut short), its source text, and the record the
adapter produces for it: every metric field stays unset. -/
def sparseLighthouseJson : Json := Json.obj [("lighthouseVersion", Json.str "10.1.0")]

def sparseLighthouseText : String := "\x7b \"lighthouseVersion\": \"10.1.0\" \x7d"

def sparseLighthouseResult : LHResult :=
  { available := true, performance_score := none, raw := some sparseLighthouseJson }

/-- Witness for C6: a timeout world, a non-zero-exit world, a
garbage-output world, a world whose stdout has leading noise before the
JSON (exercising the first-brace reparse), and a sparse-JSON world whose
absent fields stay unset. -/
theorem C6_audit_never_raises_witness :
    getLighthouseMetrics ⟨true, fun _ => .timeout, fun _ => none⟩
        "https://example.com" = lighthouseUnavailable ∧
    getLighthouseMetrics ⟨true, fun _ => .done 1 "" "docker: not found", fun _ => none⟩
        "https://example.com" = lighthouseUnavailable ∧
    getLighthouseMetrics ⟨true, fun _ => .done 0 "no json at all" "", fun _ => none⟩
        "https://example.com" = lighthouseUnavailable ∧
    runLighthouseAudit
        ⟨true, fun _ => .done 0 ("Chrome warning: xyz " ++ sparseLighthouseText) "",
          fun s => if s = sparseLighthouseText then some sparseLighthouseJson else none⟩
        "https://example.com" = some sparseLighthouseJson ∧
    (getLighthouseMetrics
        ⟨true, fun _ => .done 0 sparseLighthouseText "",
          fun s => if s = sparseLighthouseText then some sparseLighthouseJson else none⟩
        "https://example.com" = sparseLighthouseResult ∧
      sparseLighthouseResult.fcp_seconds = none ∧
      sparseLighthouseResult.performance_score = none) := by
  refine ⟨?_, ?_, ?_, ?_, ?_, ?_, ?_⟩
  · exact (C6_audit_never_raises ⟨true, fun _ => .timeout, fun _ => none⟩
      "https://example.com").1 rfl
  · exact (C6_audit_never_raises ⟨true, fun _ => .done 1 "" "docker: not found",
      fun _ => none⟩ "https://example.com").2.1 1 "" "docker: not found" rfl (by decide)
  · exact (C6_audit_never_raises ⟨true, fun _ => .done 0 "no json at all" "",
      fun _ => none⟩ "https://example.com").2.2.1 "no json at all" "" rfl rfl
      (Or.inl (by decide))
  · exact (C6_audit_never_raises
      ⟨true, fun _ => .done 0 ("Chrome warning: xyz " ++ sparseLighthouseText) "",
        fun s => if s = sparseLighthouseText then some sparseLighthouseJson else none⟩
      "https://example.com").2.2.2.1 ("Chrome warning: xyz " ++ sparseLighthouseText)
      "" 20 sparseLighthouseJson rfl rfl (by decide) rfl
  · exact ((C6_audit_never_raises
      ⟨true, fun _ => .done 0 sparseLighthouseText "",
        fun s => if s = sparseLighthouseText then some sparseLighthouseJson else none⟩
      "https://example.com").2.2.2.2 sparseLighthouseJson sparseLighthouseResult
      rfl rfl rfl rfl).1
  · exact ((C6_audit_never_raises
      ⟨true, fun _ => .done 0 sparseLighthouseText "",
        fun s => if s = sparseLighthouseText then some sparseLighthouseJson else none⟩
      "https://example.com").2.2.2.2 sparseLighthouseJson sparseLighthouseResult
      rfl rfl rfl rfl).2.1 rfl
  · exact ((C6_audit_never_raises
      ⟨true, fun _ => .done 0 sparseLighthouseText "",
        fun s => if s = sparseLighthouseText then some sparseLighthouseJson else none⟩
      "https://example.com").2.2.2.2 sparseLighthouseJson sparseLighthouseResult
      rfl rfl rfl rfl).2.2.2.2.2 rfl

/-! ## VisionGradingClient: _analyze_screenshots
(src/apps/backend/analyzer.py lines 270-379) -/

/-- `lighthouse_data.get("fcp_seconds", load_time)` under the guard
`if lighthouse_data and lighthouse_data.get("available")` (lines 283-288).
The dicts the backend's `get_lighthouse_metrics` builds always carry the
`fcp_seconds` key when `available` is true (possibly with value `None`),
so `dict.get` returns the stored value — the `load_time` default is dead
code, and an unset FCP yields `None`, not the measured time. -/
def chosenLoadTime (lighthouse_data : Option LHResult) (load_time : Rat) : Option Rat :=
  match lighthouse_data with
  | some lh => if lh.available then lh.fcp_seconds else some load_time
  | none => some load_time

/-- Formatting the chosen figure with `f"...:.1f"` in the prompt
(lines 284-295): `None` raises `TypeError` before the model is called. -/
def fmtLoadTime : Option Rat → Except String Rat
  | some x => .ok x
  | none => .error "TypeError: unsupported format string passed to NoneType.__format__"

/-- The three `R2.` fallback issue texts (lines 363-377), abstracted over
their embedded figures. -/
inductive IssueLine where
  | slowLoad (t : Rat) : IssueLine
  | slowFcp (f : Rat) : IssueLine
  | poorScore (s : Rat) : IssueLine
deriving DecidableEq

/-- The deterministic fallback rule set in the `except` branch (lines
357-379): a slow-load line when the Playwright time exceeds 3 s, then —
when the audit is available — an FCP line when `fcp_seconds` exceeds
2.5 s and a poor-score line when `performance_score` is below 70.
`dict.get('fcp_seconds', 0)` / `dict.get('performance_score', 100)` read
keys that are always present in an available audit dict, so a stored
`None` reaches the comparison and raises `TypeError`. -/
def fallbackIssues (load_time : Rat) (lighthouse_data : Option LHResult) :
    Except String (List IssueLine) :=
  let base : List IssueLine :=
    if load_time > 3 then [.slowLoad load_time] else []
  match lighthouse_data with
  | some lh =>
    if lh.available then
      match lh.fcp_seconds with
      | some f =>
        let withFcp := base ++ (if f > 5 / 2 then [.slowFcp f] else [])
        match lh.performance_score with
        | some s => .ok (withFcp ++ (if s < 70 then [.poorScore s] else []))
        | none => .error "TypeError: NoneType and int are not comparable"
      | none => .error "TypeError: NoneType and float are not comparable"
    else .ok base
  | none => .ok base

/-- Result of `_analyze_screenshots`: the model's stripped text, or the
fallback issue list. -/
inductive GradeResult where
  | aiText (s : String) : GradeResult
  | fallback (issues : List IssueLine) : GradeResult

/-- Environment oracle for one grading call: the outcome of
`self.llm.ainvoke` (`.ok` with the response text, `.error` when it
raises). -/
structure GradeWorld where
  llm : Except String String

/-- `_analyze_screenshots` (lines 270-379): choose the authoritative
load-time figure, build the prompt (raising `TypeError` when the figure is
`None` — this happens outside the `try`, so it propagates), call the
model; on model failure, fall back to the rule set. -/
def analyzeScreenshots (w : GradeWorld) (load_time : Rat)
    (lighthouse_data : Option LHResult) : Except String GradeResult :=
  match fmtLoadTime (chosenLoadTime lighthouse_data load_time) with
  | .error e => .error e
  | .ok _ =>
    match w.llm with
    | .ok text => .ok (.aiText (pyStrip text))
    | .error _ =>
      match fallbackIssues load_time lighthouse_data with
      | .ok issues => .ok (.fallback issues)
      | .error e => .error e

/-- **C7.** The figure handed to grading is the audit FCP whenever the
audit is available and set, and the measured time when the audit is
unavailable or absent; but when the audit is available with `fcp_seconds`
unset, `dict.get` returns the stored `None` (the `load_time` default is
dead because the key is always present), so the measured time of 2 s is
NOT used and prompt construction raises `TypeError` — the code contradicts
the intent its own `dict.get(…, load_time)` default expresses. -/
theorem C7_chosen_figure_code_bug :
    chosenLoadTime (some { available := false }) 2 = some 2 ∧
    chosenLoadTime none 2 = some 2 ∧
    chosenLoadTime (some { available := true, fcp_seconds := some 4 }) 2 = some 4 ∧
    chosenLoadTime (some { available := true }) 2 = none ∧
    chosenLoadTime (some { available := true }) 2 ≠ some 2 ∧
    (∀ w : GradeWorld, analyzeScreenshots w 2 (some { available := true }) =
      .error "TypeError: unsupported format string passed to NoneType.__format__") :=
  ⟨rfl, rfl, rfl, rfl, fun h => Option.noConfusion h, fun _ => rfl⟩

/-- **C8.** On a grading-call failure the deterministic fallback applies:
with an available audit whose performance score is 45 (below the threshold
of 70) it emits the poor-score line, alongside a slow-load line whenever
the Playwright time or the audit FCP crosses its threshold.  The
`fcp_seconds = some f` hypothesis reflects that every audit dict reaching
the grading call has a formattable FCP (a `None` would already have raised
during prompt construction). -/
theorem C8_fallback_poor_score (w : GradeWorld) (load_time f : Rat) (lh : LHResult)
    (e : String) (hllm : w.llm = .error e) (hav : lh.available = true)
    (hfcp : lh.fcp_seconds = some f) (hscore : lh.performance_score = some 45) :
    ∃ issues, analyzeScreenshots w load_time (some lh) = .ok (.fallback issues) ∧
      IssueLine.poorScore 45 ∈ issues ∧
      (load_time > 3 → IssueLine.slowLoad load_time ∈ issues) ∧
      (f > 5 / 2 → IssueLine.slowFcp f ∈ issues) := by
  have h45 : (45 : Rat) < 70 := by norm_num
  refine ⟨((if load_time > 3 then [.slowLoad load_time] else []) ++
      (if f > 5 / 2 then [.slowFcp f] else [])) ++ [.poorScore 45], ?_, ?_, ?_, ?_⟩
  · have hch : chosenLoadTime (some lh) load_time = some f := by
      unfold chosenLoadTime
      simp [hav, hfcp]
    have hfb : fallbackIssues load_time (some lh) =
        .ok (((if load_time > 3 then [IssueLine.slowLoad load_time] else []) ++
          (if f > 5 / 2 then [IssueLine.slowFcp f] else [])) ++ [.poorScore 45]) := by
      unfold fallbackIssues
      simp [hav, hfcp, hscore, h45]
    unfold analyzeScreenshots
    simp only [hch, fmtLoadTime, hllm, hfb]
  · simp
  · intro hlt
    simp [if_pos hlt]
  · intro hf
    simp [if_pos hf]

/-- Witness for C8: a failed grading call with an available audit scoring
45 yields the poor-score line. -/
theorem C8_fallback_poor_score_witness :
    (⟨.error "model call failed"⟩ : GradeWorld).llm = .error "model call failed" ∧
    ({ available := true, fcp_seconds := some 2, performance_score := some 45 }
        : LHResult).available = true ∧
    ∃ issues, analyzeScreenshots ⟨.error "model call failed"⟩ 2
        (some { available := true, fcp_seconds := some 2, performance_score := some 45 }) =
          .ok (.fallback issues) ∧
      IssueLine.poorScore 45 ∈ issues ∧
      ((2 : Rat) > 3 → IssueLine.slowLoad 2 ∈ issues) ∧
      ((2 : Rat) > 5 / 2 → IssueLine.slowFcp 2 ∈ issues) :=
  ⟨rfl, rfl,
    C8_fallback_poor_score ⟨.error "model call failed"⟩ 2 2
      { available := true, fcp_seconds := some 2, performance_score := some 45 }
      "model call failed" rfl rfl rfl rfl⟩

/-! ## Files, URL sanitizing and screenshot persistence
(src/apps/agent/analyzer.py lines 330-373) -/

/-- A flat file store: association list from path to content (a `Nat`
standing for the file's bytes); earlier entries shadow later ones. -/
def FS := List (String × Nat)

/-- Writing a file (screenshot, copy target): plain shadowing prepend. -/
def fsWrite (fs : FS) (p : String) (c : Nat) : FS := (p, c) :: fs

def fsRead (fs : FS) (p : String) : Option Nat :=
  (List.find? (fun e => e.1 == p) fs).map (fun e => e.2)

def fsExists (fs : FS) (p : String) : Bool :=
  (List.find? (fun e => e.1 == p) fs).isSome

/-- `Path.unlink()`. -/
def fsDelete (fs : FS) (p : String) : FS := List.filter (fun e => !(e.1 == p)) fs

/-- `Path.rename(dst)`: moves the file; raises (`none`) when the source is
missing. -/
def fsRename (fs : FS) (src dst : String) : Option FS :=
  match fsRead fs src with
  | some c => some (fsWrite (fsDelete fs src) dst c)
  | none => none

/-- `shutil.copy2(src, dst)`: duplicates the file's bytes; raises (`none`)
when the source is missing. -/
def fsCopy (fs : FS) (src dst : String) : Option FS :=
  match fsRead fs src with
  | some c => some (fsWrite fs dst c)
  | none => none

def tempDesktopPath : String := "screenshots/temp_desktop.png"

def tempMobilePath : String := "screenshots/temp_mobile.png"

/-- Python `str.replace(pat, rep)`: leftmost non-overlapping occurrences,
scanned left to right.  Structured with explicit fuel (the string length
suffices for the non-empty patterns the source uses). -/
def pyReplaceAux (pat rep : List Char) : Nat → List Char → List Char
  | 0, s => s
  | _ + 1, [] => []
  | fuel + 1, c :: cs =>
    if pat.isPrefixOf (c :: cs) then
      rep ++ pyReplaceAux pat rep fuel ((c :: cs).drop pat.length)
    else
      c :: pyReplaceAux pat rep fuel cs

def pyReplace (s pat rep : String) : String :=
  String.mk (pyReplaceAux pat.data rep.data s.data.length s.data)

/-- Python slicing `s[:n]`. -/
def pyTake (n : Nat) (s : String) : String := String.mk (s.data.take n)

/-- The `safe_url` computation (lines 345-350):
`url.replace("https://","").replace("http://","").replace("/","_").replace("?","_")[:50]`.
Note that only `/` and `?` are replaced — characters such as `=` or `&`
survive into the stem. -/
def safeUrl (url : String) : String :=
  pyTake 50
    (pyReplace (pyReplace (pyReplace (pyReplace url "https://" "") "http://" "") "/" "_") "?" "_")

/-- A wall-clock instant at minute resolution, as consumed by
`datetime.now().strftime("%Y%m%d_%H%M")`. -/
structure DateTimeMin where
  year : Nat
  month : Nat
  day : Nat
  hour : Nat
  minute : Nat

def pad2 (n : Nat) : String := if n < 10 then "0" ++ toString n else toString n

def pad4 (n : Nat) : String :=
  if n < 10 then "000" ++ toString n
  else if n < 100 then "00" ++ toString n
  else if n < 1000 then "0" ++ toString n
  else toString n

/-- `strftime("%Y%m%d_%H%M")`: zero-padded date, an underscore, zero-padded
hour and minute. -/
def strftimeCompact (t : DateTimeMin) : String :=
  pad4 t.year ++ pad2 t.month ++ pad2 t.day ++ "_" ++ pad2 t.hour ++ pad2 t.minute

/-- `desktop_screenshot.parent / f"desktop_{safe_url}_{timestamp}.png"`. -/
def desktopFinalPath (url : String) (t : DateTimeMin) : String :=
  "screenshots/desktop_" ++ (safeUrl url ++ ("_" ++ (strftimeCompact t ++ ".png")))

/-- `mobile_screenshot.parent / f"mobile_{safe_url}_{timestamp}.png"`. -/
def mobileFinalPath (url : String) (t : DateTimeMin) : String :=
  "screenshots/mobile_" ++ (safeUrl url ++ ("_" ++ (strftimeCompact t ++ ".png")))

/-- `_cleanup_temp_screenshots` (lines 330-339): delete each temp file if
it exists; the whole body is wrapped in `try/except` that only logs. -/
def cleanupTempScreenshots (fs : FS) : FS :=
  let fs1 := if fsExists fs tempDesktopPath then fsDelete fs tempDesktopPath else fs
  if fsExists fs1 tempMobilePath then fsDelete fs1 tempMobilePath else fs1

/-- `_save_screenshots_with_names` (lines 341-373): rename both temp files
to their sanitized permanent names and report them; on any failure, log
and fall back to `_cleanup_temp_screenshots` (nothing is raised). -/
def saveScreenshotsWithNames (fs : FS) (url : String) (t : DateTimeMin) :
    FS × Option (String × String) :=
  match fsRename fs tempDesktopPath (desktopFinalPath url t) with
  | none => (cleanupTempScreenshots fs, none)
  | some fs1 =>
    match fsRename fs1 tempMobilePath (mobileFinalPath url t) with
    | none => (cleanupTempScreenshots fs1, none)
    | some fs2 => (fs2, some (desktopFinalPath url t, mobileFinalPath url t))

/-! ## AnalysisPipeline: analyze_website
(src/apps/agent/analyzer.py lines 224-298) -/

/-- Outcome of the desktop capture block (lines 240-248): success with the
measured navigation time; an exception before `load_time` is assigned
(viewport/goto); or an exception after it (screenshot), keeping the
measured time. -/
inductive DesktopOutcome where
  | ok (loadTime : Rat) : DesktopOutcome
  | failBeforeTiming (err : String) : DesktopOutcome
  | failAfterTiming (loadTime : Rat) (err : String) : DesktopOutcome
deriving DecidableEq

/-- Outcome of the mobile capture block (lines 261-277). -/
inductive MobileOutcome where
  | ok : MobileOutcome
  | fail (err : String) : MobileOutcome
deriving DecidableEq

/-- Environment oracle for one `analyze_website` call. -/
structure AgentWorld where
  audit : AuditWorld
  desktop : DesktopOutcome
  desktopImage : Nat
  mobile : MobileOutcome
  mobileImage : Nat
  aiText : String

/-- `_handle_website_timeout` (lines 300-314). -/
def websiteTimeoutMessage : String :=
  "🚫 WEBSITE ACCESS ISSUE\n\n" ++
  "The website is not responding or taking too long to load (>30 seconds).\n\n" ++
  "Possible reasons:\n" ++
  "• Website may be down or not working\n" ++
  "• Website may be blocked in your country/region\n" ++
  "• Website may have very slow servers\n" ++
  "• Network connectivity issues\n\n" ++
  "Please try:\n" ++
  "• Check if the website works in your browser\n" ++
  "• Try again later\n" ++
  "• Use a VPN if the website might be geo-blocked"

/-- `_handle_website_error` (lines 316-328), embedding the error message
truncated to 100 characters. -/
def websiteErrorMessage (e : String) : String :=
  "🚫 WEBSITE ACCESS ERROR\n\n" ++
  "Unable to access the website for analysis.\n\n" ++
  "Possible reasons:\n" ++
  "• Website does not exist or URL is incorrect\n" ++
  "• Website requires special authentication\n" ++
  "• Website blocks automated tools\n" ++
  "• SSL/HTTPS certificate issues\n\n" ++
  "Technical error: " ++ pyTake 100 e ++ "...\n\n" ++
  "Please verify the URL is correct and the website is accessible."

def strToLower (s : String) : String := String.mk (s.data.map Char.toLower)

/-- The timeout classifier (line 252):
`"Timeout" in str(e) or "timeout" in str(e).lower()`. -/
def isTimeoutText (e : String) : Bool :=
  strHasSub e "Timeout" || strHasSub (strToLower e) "timeout"

/-- What `analyze_website` returns and the observable events along the
way.  `results`/`load_time`/`lighthouse` are the returned triple;
`aborted` records the early-return paths; `gradingInputs` the two file
contents handed to the AI analyzer; `desktopPath`/`mobilePath` the
`self.*_screenshot_path` attributes. -/
structure AnalyzeOutput where
  results : String
  load_time : Rat
  lighthouse : LHResult
  aborted : Bool
  mobileAttempted : Bool
  mobileCopiedFromDesktop : Bool
  gradingInputs : Option (Nat × Nat)
  fs : FS
  desktopPath : Option String
  mobilePath : Option String

/-- `analyze_website` (lines 224-298): audit, desktop capture (failure
classifies the error and returns the matching message, the elapsed load
time so far and the audit result, never attempting mobile), mobile capture
(failure copies the desktop image over the mobile path), AI analysis, and
persistence or cleanup of the temp screenshots. -/
def analyzeWebsite (w : AgentWorld) (save : Bool) (t : DateTimeMin) (url : String) :
    AnalyzeOutput :=
  let lighthouse := getLighthouseMetrics w.audit url
  match w.desktop with
  | .failBeforeTiming e =>
    { results := if isTimeoutText e then websiteTimeoutMessage else websiteErrorMessage e,
      load_time := 0, lighthouse := lighthouse, aborted := true,
      mobileAttempted := false, mobileCopiedFromDesktop := false,
      gradingInputs := none, fs := [], desktopPath := none, mobilePath := none }
  | .failAfterTiming lt e =>
    { results := if isTimeoutText e then websiteTimeoutMessage else websiteErrorMessage e,
      load_time := lt, lighthouse := lighthouse, aborted := true,
      mobileAttempted := false, mobileCopiedFromDesktop := false,
      gradingInputs := none, fs := [], desktopPath := none, mobilePath := none }
  | .ok lt =>
    let fs1 := fsWrite [] tempDesktopPath w.desktopImage
    let fs2 := match w.mobile with
      | .ok => fsWrite fs1 tempMobilePath w.mobileImage
      | .fail _ =>
        match fsCopy fs1 tempDesktopPath tempMobilePath with
        | some f => f
        | none => fs1   -- bare `except: pass` around the copy
    let copied := match w.mobile with | .ok => false | .fail _ => true
    let gin := (fsRead fs2 tempDesktopPath).bind
      (fun d => (fsRead fs2 tempMobilePath).map (fun m => (d, m)))
    let persisted : FS × Option String × Option String :=
      if save then
        match saveScreenshotsWithNames fs2 url t with
        | (fs3, some (dp, mp)) => (fs3, some dp, some mp)
        | (fs3, none) => (fs3, some tempDesktopPath, some tempMobilePath)
      else (cleanupTempScreenshots fs2, some tempDesktopPath, some tempMobilePath)
    { results := w.aiText, load_time := lt, lighthouse := lighthouse,
      aborted := false, mobileAttempted := true, mobileCopiedFromDesktop := copied,
      gradingInputs := gin, fs := persisted.1,
      desktopPath := persisted.2.1, mobilePath := persisted.2.2 }

/-- **C4.** A desktop-capture failure aborts the analysis: the call returns
the timeout template when the error text indicates a timeout and the
access-error template (with the raw message truncated to 100 characters)
otherwise, together with the audit result gathered earlier and the load
time elapsed so far (0 when the failure precedes the timing, the measured
time when the screenshot step fails), and mobile capture is not
attempted. -/
theorem C4_desktop_failure_aborts (w : AgentWorld) (save : Bool) (t : DateTimeMin)
    (url e : String) (lt : Rat) :
    (w.desktop = .failBeforeTiming e →
      (analyzeWebsite w save t url).aborted = true ∧
      (analyzeWebsite w save t url).mobileAttempted = false ∧
      (analyzeWebsite w save t url).load_time = 0 ∧
      (analyzeWebsite w save t url).lighthouse = getLighthouseMetrics w.audit url ∧
      (isTimeoutText e = true →
        (analyzeWebsite w save t url).results = websiteTimeoutMessage) ∧
      (isTimeoutText e = false →
        (analyzeWebsite w save t url).results = websiteErrorMessage e)) ∧
    (w.desktop = .failAfterTiming lt e →
      (analyzeWebsite w save t url).aborted = true ∧
      (analyzeWebsite w save t url).mobileAttempted = false ∧
      (analyzeWebsite w save t url).load_time = lt ∧
      (analyzeWebsite w save t url).lighthouse = getLighthouseMetrics w.audit url ∧
      (isTimeoutText e = true →
        (analyzeWebsite w save t url).results = websiteTimeoutMessage) ∧
      (isTimeoutText e = false →
        (analyzeWebsite w save t url).results = websiteErrorMessage e)) := by
  constructor
  · intro h
    unfold analyzeWebsite
    rw [h]
    refine ⟨rfl, rfl, rfl, rfl, ?_, ?_⟩
    · intro hT
      simp [hT]
    · intro hT
      simp [hT]
  · intro h
    unfold analyzeWebsite
    rw [h]
    refine ⟨rfl, rfl, rfl, rfl, ?_, ?_⟩
    · intro hT
      simp [hT]
    · intro hT
      simp [hT]

/-- A world whose desktop navigation times out (the Playwright timeout
message contains "Timeout"). -/
def sampleTimeoutWorld : AgentWorld :=
  ⟨⟨false, fun _ => .timeout, fun _ => none⟩,
   .failBeforeTiming "Page.goto: Timeout 30000ms exceeded.", 7, .ok, 8,
   "R3. CTA is missing in the hero section."⟩

/-- Witness for C4: the timeout-classified desktop failure returns the
timeout template, aborts, and skips mobile capture. -/
theorem C4_desktop_failure_aborts_witness :
    sampleTimeoutWorld.desktop =
      .failBeforeTiming "Page.goto: Timeout 30000ms exceeded." ∧
    isTimeoutText "Page.goto: Timeout 30000ms exceeded." = true ∧
    ((analyzeWebsite sampleTimeoutWorld false ⟨2025, 1, 2, 3, 4⟩
        "https://example.com").aborted = true ∧
      (analyzeWebsite sampleTimeoutWorld false ⟨2025, 1, 2, 3, 4⟩
        "https://example.com").mobileAttempted = false ∧
      (analyzeWebsite sampleTimeoutWorld false ⟨2025, 1, 2, 3, 4⟩
        "https://example.com").load_time = 0 ∧
      (analyzeWebsite sampleTimeoutWorld false ⟨2025, 1, 2, 3, 4⟩
        "https://example.com").results = websiteTimeoutMessage) :=
  ⟨rfl, by decide, by
    have h := (C4_desktop_failure_aborts sampleTimeoutWorld false ⟨2025, 1, 2, 3, 4⟩
      "https://example.com" "Page.goto: Timeout 30000ms exceeded." 0).1 rfl
    exact ⟨h.1, h.2.1, h.2.2.1, h.2.2.2.2.1 (by decide)⟩⟩

/-- **C5.** If the desktop capture succeeds and the mobile capture fails,
the analysis does not abort: the desktop image is copied over the mobile
path, so grading receives two byte-identical images, and the call returns
the (successful) AI analysis result with the measured load time. -/
theorem C5_mobile_failure_copies_desktop (w : AgentWorld) (save : Bool)
    (t : DateTimeMin) (url : String) (lt : Rat) (e : String)
    (hd : w.desktop = .ok lt) (hm : w.mobile = .fail e) :
    (analyzeWebsite w save t url).aborted = false ∧
    (analyzeWebsite w save t url).results = w.aiText ∧
    (analyzeWebsite w save t url).mobileAttempted = true ∧
    (analyzeWebsite w save t url).mobileCopiedFromDesktop = true ∧
    (analyzeWebsite w save t url).gradingInputs =
      some (w.desktopImage, w.desktopImage) ∧
    (analyzeWebsite w save t url).load_time = lt := by
  unfold analyzeWebsite
  rw [hd, hm]
  exact ⟨rfl, rfl, rfl, rfl, rfl, rfl⟩

/-- A world whose desktop capture succeeds and whose mobile capture
fails. -/
def sampleMobileFailWorld : AgentWorld :=
  ⟨⟨false, fun _ => .timeout, fun _ => none⟩, .ok 2, 7,
   .fail "net::ERR_CONNECTION_RESET", 8, ""⟩

/-- Witness for C5 at a concrete world: mobile failure duplicates the
desktop bytes and the analysis succeeds. -/
theorem C5_mobile_failure_copies_desktop_witness :
    sampleMobileFailWorld.desktop = .ok 2 ∧
    sampleMobileFailWorld.mobile = .fail "net::ERR_CONNECTION_RESET" ∧
    ((analyzeWebsite sampleMobileFailWorld false ⟨2025, 1, 2, 3, 4⟩
        "https://example.com").aborted = false ∧
      (analyzeWebsite sampleMobileFailWorld false ⟨2025, 1, 2, 3, 4⟩
        "https://example.com").gradingInputs = some (7, 7)) :=
  ⟨rfl, rfl, by
    have h := C5_mobile_failure_copies_desktop sampleMobileFailWorld false
      ⟨2025, 1, 2, 3, 4⟩ "https://example.com" 2 "net::ERR_CONNECTION_RESET" rfl rfl
    exact ⟨h.1, h.2.2.2.2.1⟩⟩

/-! ### Screenshot persistence round-trip (C10) -/

theorem string_ne_of_char (i : Nat) {s1 s2 : String}
    (h : s1.data[i]? ≠ s2.data[i]?) : s1 ≠ s2 :=
  fun he => h (by rw [he])

theorem prefix_getElem (pre rest : String) (i : Nat) (hi : i < pre.data.length) :
    (pre ++ rest).data[i]? = pre.data[i]? := by
  rw [String.data_append]
  exact List.getElem?_append_left hi

theorem desktopFinal_ne_tempDesktop (url : String) (t : DateTimeMin) :
    desktopFinalPath url t ≠ tempDesktopPath := by
  apply string_ne_of_char 12
  unfold desktopFinalPath
  rw [prefix_getElem "screenshots/desktop_" _ 12 (by decide)]
  decide

theorem desktopFinal_ne_tempMobile (url : String) (t : DateTimeMin) :
    desktopFinalPath url t ≠ tempMobilePath := by
  apply string_ne_of_char 12
  unfold desktopFinalPath
  rw [prefix_getElem "screenshots/desktop_" _ 12 (by decide)]
  decide

theorem mobileFinal_ne_tempDesktop (url : String) (t : DateTimeMin) :
    mobileFinalPath url t ≠ tempDesktopPath := by
  apply string_ne_of_char 12
  unfold mobileFinalPath
  rw [prefix_getElem "screenshots/mobile_" _ 12 (by decide)]
  decide

theorem mobileFinal_ne_tempMobile (url : String) (t : DateTimeMin) :
    mobileFinalPath url t ≠ tempMobilePath := by
  apply string_ne_of_char 12
  unfold mobileFinalPath
  rw [prefix_getElem "screenshots/mobile_" _ 12 (by decide)]
  decide

theorem fsExists_delete_self (fs : FS) (p : String) :
    fsExists (fsDelete fs p) p = false := by
  induction fs with
  | nil => rfl
  | cons e rest ih =>
    by_cases he : e.1 = p
    · simp [fsDelete, fsExists, he]
    · have hb : (e.1 == p) = false := beq_eq_false_iff_ne.mpr he
      simp only [fsDelete, List.filter, hb, Bool.not_false]
      simp only [fsExists, List.find?, hb]
      exact ih

theorem fsExists_delete_mono (fs : FS) (p q : String)
    (h : fsExists fs p = false) : fsExists (fsDelete fs q) p = false := by
  induction fs with
  | nil => rfl
  | cons e rest ih =>
    by_cases hep : e.1 = p
    · exfalso
      simp [fsExists, List.find?, hep] at h
    · have hbp : (e.1 == p) = false := beq_eq_false_iff_ne.mpr hep
      have hrest : fsExists rest p = false := by
        simpa [fsExists, List.find?, hbp] using h
      by_cases heq : e.1 = q
      · have hbq : (e.1 == q) = true := beq_iff_eq.mpr heq
        simp only [fsDelete, List.filter, hbq, Bool.not_true]
        exact ih hrest
      · have hbq : (e.1 == q) = false := beq_eq_false_iff_ne.mpr heq
        simp only [fsDelete, List.filter, hbq, Bool.not_false]
        simp only [fsExists, List.find?, hbp]
        exact ih hrest

theorem cleanup_removes_temps (fs : FS) :
    fsExists (cleanupTempScreenshots fs) tempDesktopPath = false ∧
    fsExists (cleanupTempScreenshots fs) tempMobilePath = false := by
  unfold cleanupTempScreenshots
  by_cases h1 : fsExists fs tempDesktopPath = true
  · rw [if_pos h1]
    have hd1 : fsExists (fsDelete fs tempDesktopPath) tempDesktopPath = false :=
      fsExists_delete_self fs tempDesktopPath
    by_cases h2 : fsExists (fsDelete fs tempDesktopPath) tempMobilePath = true
    · rw [if_pos h2]
      exact ⟨fsExists_delete_mono _ _ _ hd1, fsExists_delete_self _ _⟩
    · rw [if_neg h2]
      exact ⟨hd1, Bool.not_eq_true _ ▸ h2⟩
  · rw [if_neg h1]
    have hd1 : fsExists fs tempDesktopPath = false := Bool.not_eq_true _ ▸ h1
    by_cases h2 : fsExists fs tempMobilePath = true
    · rw [if_pos h2]
      exact ⟨fsExists_delete_mono _ _ _ hd1, fsExists_delete_self _ _⟩
    · rw [if_neg h2]
      exact ⟨hd1, Bool.not_eq_true _ ▸ h2⟩

/-- **C10 counterexample.** The claim's sanitized stem for
`https://example.com/a?b=1` is `example.com_a_b_1`; the code (which
replaces only `/` and `?`, leaving `=` intact) produces
`example.com_a_b=1`, and the saved file name does not contain the claimed
stem. -/
theorem C10_sanitized_stem_counterexample :
    safeUrl "https://example.com/a?b=1" = "example.com_a_b=1" ∧
    safeUrl "https://example.com/a?b=1" ≠ "example.com_a_b_1" ∧
    desktopFinalPath "https://example.com/a?b=1" ⟨2025, 1, 2, 3, 4⟩ =
      "screenshots/desktop_example.com_a_b=1_20250102_0304.png" ∧
    strHasSub (desktopFinalPath "https://example.com/a?b=1" ⟨2025, 1, 2, 3, 4⟩)
      "example.com_a_b_1" = false := by
  refine ⟨by decide, by decide, by decide, by decide⟩

/-- **C10 (amended).** With retention requested, the temp screenshots are
renamed to `desktop_`/`mobile_` + the sanitized stem (scheme stripped, `/`
and `?` — and only those — replaced by `_`, truncated to 50 characters;
`https://example.com/a?b=1` yields `example.com_a_b=1`) + a
`YYYYMMDD_HHMM` minute-resolution timestamp + `.png`; with `save=false`
both temp files are deleted; and both persistence and cleanup are total,
the rename-failure path falling back to cleanup instead of raising. -/
theorem C10_screenshot_persistence (url : String) (t : DateTimeMin) (d m : Nat) :
    (safeUrl url).data.length ≤ 50 ∧
    desktopFinalPath url t =
      "screenshots/desktop_" ++ (safeUrl url ++ ("_" ++ (strftimeCompact t ++ ".png"))) ∧
    mobileFinalPath url t =
      "screenshots/mobile_" ++ (safeUrl url ++ ("_" ++ (strftimeCompact t ++ ".png"))) ∧
    (∃ fs', saveScreenshotsWithNames
        [(tempDesktopPath, d), (tempMobilePath, m)] url t =
        (fs', some (desktopFinalPath url t, mobileFinalPath url t)) ∧
      fsRead fs' (mobileFinalPath url t) = some m ∧
      fsExists fs' tempDesktopPath = false ∧
      fsExists fs' tempMobilePath = false) ∧
    saveScreenshotsWithNames [] url t = ([], none) ∧
    (∀ fs : FS, fsExists (cleanupTempScreenshots fs) tempDesktopPath = false ∧
      fsExists (cleanupTempScreenshots fs) tempMobilePath = false) ∧
    (∀ (w : AgentWorld) (lt : Rat), w.desktop = .ok lt →
      fsExists (analyzeWebsite w false t url).fs tempDesktopPath = false ∧
      fsExists (analyzeWebsite w false t url).fs tempMobilePath = false) := by
  have hdt := desktopFinal_ne_tempDesktop url t
  have hdm := desktopFinal_ne_tempMobile url t
  have hmt := mobileFinal_ne_tempDesktop url t
  have hmm := mobileFinal_ne_tempMobile url t
  have hbdt : (desktopFinalPath url t == tempDesktopPath) = false :=
    beq_eq_false_iff_ne.mpr hdt
  have hbdm : (desktopFinalPath url t == tempMobilePath) = false :=
    beq_eq_false_iff_ne.mpr hdm
  have hbmt : (mobileFinalPath url t == tempDesktopPath) = false :=
    beq_eq_false_iff_ne.mpr hmt
  have hbmm : (mobileFinalPath url t == tempMobilePath) = false :=
    beq_eq_false_iff_ne.mpr hmm
  refine ⟨?_, rfl, rfl, ?_, rfl, cleanup_removes_temps, ?_⟩
  · have hdata : (safeUrl url).data = List.take 50
        (pyReplace (pyReplace (pyReplace (pyReplace url "https://" "")
          "http://" "") "/" "_") "?" "_").data := rfl
    rw [hdata, List.length_take]
    exact min_le_left _ _
  · refine ⟨[(mobileFinalPath url t, m), (desktopFinalPath url t, d)], ?_, ?_, ?_, ?_⟩
    · unfold saveScreenshotsWithNames fsRename fsRead fsDelete fsWrite
      simp [List.find?, List.filter, hbdm]
    · simp [fsRead, List.find?]
    · simp [fsExists, List.find?, hbmt, hbdt]
    · simp [fsExists, List.find?, hbmm, hbdm]
  · intro w lt hd
    unfold analyzeWebsite
    rw [hd]
    cases hm : w.mobile
    · exact cleanup_removes_temps
        (fsWrite (fsWrite [] tempDesktopPath w.desktopImage) tempMobilePath w.mobileImage)
    · exact cleanup_removes_temps
        (fsWrite (fsWrite [] tempDesktopPath w.desktopImage) tempMobilePath w.desktopImage)

/-- Witness for C10's amended claim at the spec's example URL. -/
theorem C10_screenshot_persistence_witness :
    (safeUrl "https://example.com/a?b=1").data.length ≤ 50 ∧
    (∃ fs', saveScreenshotsWithNames
        [(tempDesktopPath, 7), (tempMobilePath, 8)] "https://example.com/a?b=1"
          ⟨2025, 1, 2, 3, 4⟩ =
        (fs', some (desktopFinalPath "https://example.com/a?b=1" ⟨2025, 1, 2, 3, 4⟩,
          mobileFinalPath "https://example.com/a?b=1" ⟨2025, 1, 2, 3, 4⟩)) ∧
      fsRead fs' (mobileFinalPath "https://example.com/a?b=1" ⟨2025, 1, 2, 3, 4⟩) =
        some 8 ∧
      fsExists fs' tempDesktopPath = false ∧
      fsExists fs' tempMobilePath = false) ∧
    ((sampleMobileFailWorld : AgentWorld).desktop = DesktopOutcome.ok 2 ∧
      fsExists (analyzeWebsite sampleMobileFailWorld false ⟨2025, 1, 2, 3, 4⟩
        "https://example.com/a?b=1").fs tempDesktopPath = false) := by
  have h := C10_screenshot_persistence "https://example.com/a?b=1" ⟨2025, 1, 2, 3, 4⟩ 7 8
  exact ⟨h.1, h.2.2.2.1,
    ⟨rfl, (h.2.2.2.2.2.2 sampleMobileFailWorld 2 rfl).1⟩⟩

end UIAnalyser
